import Mathlib

/-!
# Kore network connection: sequence numbers, framing and the retransmit cache

A shallow embedding of `Sources/Kore/Network/Connection.cpp` (with the part of
`Socket.cpp` it calls) and theorems about it.

Conventions of the embedding:

* `u32` values are natural numbers; every place where the source relies on
  unsigned overflow carries an explicit `% 4294967296`.
* memory (`sndBuff`, `recBuff`, `sndCache`) is a list of bytes; multi-byte
  fields are little-endian, as on the hosts the source is written for.
* `double` values are rationals.  Their 64-bit image in memory is not fixed by
  the embedding: it is the parameter `Platform`, which also gives the rounding
  of the two sides of the resend test; the other sums and differences of times
  are taken exactly.
* `System::time()` is read once per call of `send` and `receive`: the value is
  the argument `now`.
* `none` is the result of a call that stops at a failing `assert`, at the
  division by zero of `% cacheCount` when `cacheCount` is 0, or at the `memcpy`
  of the resend branch when its length runs past the end of `sndBuff`.
* the socket is a queue of inbound datagrams, passed to `receive`, and the list
  `outbox` of the datagrams handed to `Socket::send`.
* `receive` also yields the list of `Event`s of the call, a record of the
  branches taken; it has no counterpart in the source.
-/

namespace Kore

/-! ## Bytes and memory -/

abbrev Byte := Fin 256

abbrev Datagram := List Byte

/-- Low byte of a number. -/
def byteOf (v : Nat) : Byte := ⟨v % 256, Nat.mod_lt v (by decide)⟩

/-- The `n` bytes of `mem` starting at `off` (bytes outside the list read as 0). -/
def readBytes (mem : List Byte) (off n : Nat) : List Byte :=
  (List.range n).map (fun i => mem.getD (off + i) 0)

/-- Copy of `bs` into `mem` at `off`, as `memcpy (mem + off, bs, bs.length)`.
A write past the end of the list lengthens the list; `send` and `receive` check
the size against `buffSize` before they copy into `sndBuff`. -/
def writeBytes (mem : List Byte) (off : Nat) (bs : List Byte) : List Byte :=
  (List.range (max mem.length (off + bs.length))).map
    (fun a => if off ≤ a ∧ a < off + bs.length then bs.getD (a - off) 0 else mem.getD a 0)

/-- Little-endian image of a `u32`. -/
def u32le (v : Nat) : List Byte :=
  [byteOf v, byteOf (v / 256), byteOf (v / 65536), byteOf (v / 16777216)]

/-- Little-endian image of a 64-bit pattern. -/
def u64le (v : Nat) : List Byte :=
  u32le v ++ u32le (v / 4294967296)

/-- Load of a `u32` at `off`: `*((u32*)(mem + off))`. -/
def readU32 (mem : List Byte) (off : Nat) : Nat :=
  (mem.getD off 0).val + 256 * (mem.getD (off + 1) 0).val
    + 65536 * (mem.getD (off + 2) 0).val + 16777216 * (mem.getD (off + 3) 0).val

/-- Load of a 64-bit pattern at `off`. -/
def readU64 (mem : List Byte) (off : Nat) : Nat :=
  readU32 mem off + 4294967296 * readU32 mem (off + 4)

/-- What the embedding leaves to the platform: the memory image of a `double`,
the rounding of a `double` operation, and the content of memory the source reads
or sends without having written it. -/
structure Platform where
  /-- the 64-bit pattern stored for a value -/
  bits : ℚ → Nat
  /-- the value a 64-bit pattern is loaded as -/
  value : Nat → ℚ
  /-- the `double` that the exact result of an operation is rounded to -/
  round : ℚ → ℚ
  /-- the four bytes of the Pong payload that `processControlMessage` leaves unwritten -/
  uninit : List Byte

/-! ## Constants (anonymous namespace of Connection.cpp) -/

def PROTOCOL_ID : Nat := 1346655563

/-- `((u32)-1) / 4`. -/
def REC_NR_WINDOW : Nat := 4294967295 / 4

def HEADER_SIZE : Nat := 8

/-- `0.1`, taken as the exact rational. -/
def PNG_SMOOTHING : ℚ := 1 / 10

/-- The `float` literal `1.1f` of the resend test, exactly: `0x3F8CCCCD`. -/
def RESEND_FACTOR : ℚ := 9227469 / 8388608

/-- Modelled from the spec: the enumerators of `ControlType` are declared in
`Connection.h`, which is not part of the sources; the spec gives Ping = 0. -/
def Ping : Nat := 0

/-- Modelled from the spec: the enumerators of `ControlType` are declared in
`Connection.h`, which is not part of the sources; the spec gives Pong = 1. -/
def Pong : Nat := 1

/-- Modelled from the spec: `enum State` is declared in `Connection.h`, which is
not part of the sources; the spec gives the two states. -/
inductive State where
  | Disconnected
  | Connected
  deriving DecidableEq, Repr

/-! ## The endpoint -/

/-- The members of `Connection` that `Connection.cpp` uses.  The counters are
`u32`, the times `double` (the declarations are in `Connection.h`; the spec gives
the types).  `url`, `sndPort` and `recPort` only address the socket and are left
out; `outbox` is the list of datagrams handed to `Socket::send`, oldest first. -/
structure Connection where
  timeout : ℚ
  pngInterv : ℚ
  buffSize : Nat
  cacheCount : Nat
  sndBuff : List Byte
  sndCache : List Byte
  recBuff : List Byte
  lastSndNrRel : Nat
  lastSndNrURel : Nat
  lastAckNrRel : Nat
  lastRecNrRel : Nat
  lastRecNrURel : Nat
  state : State
  ping : ℚ
  lastRec : ℚ
  lastPng : ℚ
  outbox : List Datagram

namespace Connection

/-- `Connection::reset`. -/
def reset (c : Connection) : Connection :=
  { c with
    lastSndNrRel := 0
    lastSndNrURel := 0
    lastAckNrRel := 0
    lastRecNrRel := 0
    lastRecNrURel := 0
    state := State.Disconnected
    ping := -1
    lastRec := 0
    lastPng := 0 }

/-- `Connection::Connection`: the buffers are allocated with the sizes of the
source and `reset` is called.  `new u8[n]` leaves the content unspecified; the
embedding starts from zeroed buffers. -/
def new (timeout pngInterv : ℚ) (buffSize cacheCount : Nat) : Connection :=
  reset
    { timeout := timeout
      pngInterv := pngInterv
      buffSize := buffSize
      cacheCount := cacheCount
      sndBuff := List.replicate buffSize 0
      sndCache := List.replicate ((buffSize + 12) * cacheCount) 0
      recBuff := List.replicate buffSize 0
      lastSndNrRel := 0
      lastSndNrURel := 0
      lastAckNrRel := 0
      lastRecNrRel := 0
      lastRecNrURel := 0
      state := State.Disconnected
      ping := -1
      lastRec := 0
      lastPng := 0
      outbox := [] }

/-- `Connection::checkSeqNr (u32 next, u32 last)`; `last + REC_NR_WINDOW` is a
`u32` sum. -/
def checkSeqNr (next last : Nat) : Bool :=
  (decide (next > last) || decide (next < REC_NR_WINDOW))
    && decide (next < (last + REC_NR_WINDOW) % 4294967296)

/-- The first word of a frame: `(PROTOCOL_ID & 0xFFFFFFF0) + reliable + 2 * control`. -/
def frameTag (reliable control : Bool) : Nat :=
  ((PROTOCOL_ID &&& 0xFFFFFFF0) + reliable.toNat + 2 * control.toNat) % 4294967296

/-- Offset in `sndCache` of the entry of sequence number `nr`:
`(nr % cacheCount) * buffSize`, a `u32` product.  With `cacheCount = 0` the
remainder is a division by zero: there is no offset. -/
def cacheOffset (c : Connection) (nr : Nat) : Option Nat :=
  if c.cacheCount = 0 then none
  else some ((nr % c.cacheCount) * c.buffSize % 4294967296)

/-- `Connection::send (data, size, reliable, control)` with `size = data.length`.
A reliable `send` on an endpoint with `cacheCount = 0` stops at the first
`% cacheCount` (source line 66), before `Socket::send`. -/
def send (P : Platform) (now : ℚ) (c : Connection) (data : List Byte)
    (reliable control : Bool) : Option Connection :=
  if data.length + HEADER_SIZE ≤ c.buffSize then
    let buf := writeBytes c.sndBuff HEADER_SIZE data
    let buf := writeBytes buf 0 (u32le (frameTag reliable control))
    if reliable then
      let nr := (c.lastSndNrRel + 1) % 4294967296
      let buf := writeBytes buf 4 (u32le nr)
      match cacheOffset c nr with
      | none => none
      | some off =>
        let cache := writeBytes c.sndCache off (u64le (P.bits now))
        let cache := writeBytes cache (off + 8) (u32le ((HEADER_SIZE + data.length) % 4294967296))
        let cache := writeBytes cache (off + 12) (readBytes buf 0 (HEADER_SIZE + data.length))
        some { c with
          sndBuff := buf
          lastSndNrRel := nr
          sndCache := cache
          outbox := c.outbox ++ [readBytes buf 0 (HEADER_SIZE + data.length)] }
    else
      let buf := writeBytes buf 4 (u32le c.lastSndNrURel)
      some { c with
        sndBuff := buf
        lastSndNrURel := (c.lastSndNrURel + 1) % 4294967296
        outbox := c.outbox ++ [readBytes buf 0 (HEADER_SIZE + data.length)] }
  else
    none

/-- `Connection::processMessage (size, returnBuffer)`: the result is `msgSize`
and the bytes copied to `returnBuffer`.  (For `size < 8` the source passes a
negative length to `memcpy`; the embedding copies nothing then.) -/
def processMessage (c : Connection) (size : Nat) : Int × List Byte :=
  let msgSize : Int := (size : Int) - (HEADER_SIZE : Int)
  (msgSize, readBytes c.recBuff HEADER_SIZE msgSize.toNat)

/-- `Connection::processControlMessage`.  The Pong payload is `data[13]`: byte 0
is `Pong`, bytes 1 to 8 are the timestamp of the Ping copied as a `double`, and
bytes 9 to 12 are not written by the source. -/
def processControlMessage (P : Platform) (now : ℚ) (c : Connection) : Option Connection :=
  let controlType := (c.recBuff.getD HEADER_SIZE 0).val
  if controlType = Ping then
    let data := byteOf Pong :: (readBytes c.recBuff (HEADER_SIZE + 1) 8 ++ readBytes P.uninit 0 4)
    let recNr := readU32 c.recBuff (HEADER_SIZE + 9)
    let c1 := if checkSeqNr recNr c.lastAckNrRel then { c with lastAckNrRel := recNr } else c
    send P now c1 data false true
  else if controlType = Pong then
    let recPing := now - P.value (readU64 c.recBuff (HEADER_SIZE + 1))
    if c.ping = -1 then some { c with ping := recPing }
    else some { c with ping := PNG_SMOOTHING * c.ping + (1 - PNG_SMOOTHING) * recPing }
  else
    some c

end Connection

/-- What one call of `receive` did, in order.  The record is not part of the
source; it names the branches taken. -/
inductive Event where
  /-- the keep-alive was sent -/
  | keepAlive
  /-- a datagram failed the protocol id test -/
  | stray
  /-- a datagram passed the protocol id test and its sequence number was refused -/
  | rejected (reliable : Bool) (recNr : Nat)
  /-- a control datagram was accepted and `processControlMessage` called -/
  | control (reliable : Bool) (recNr : Nat)
  /-- a data datagram was accepted and `processMessage` returned to the caller -/
  | data (reliable : Bool) (recNr : Nat) (msgSize : Int) (out : List Byte)
  /-- the timeout branch called `reset` -/
  | reset
  /-- the resend branch sent the cached frame again -/
  | resend
  deriving DecidableEq, Repr

/-- The value and the bytes that `receive` returns at once for this event. -/
def Event.returned : Event → Option (Int × List Byte)
  | Event.data _ _ n out => some (n, out)
  | _ => none

namespace Connection

/-- Body of the `while` loop of `Connection::receive` (source lines 99 to 140)
for a datagram of `size` bytes already in `recBuff`.  `recNr` is declared `int`
in the source and is converted back to `u32` at each use, so it is the `u32`
read from the buffer. -/
def processDatagram (P : Platform) (now : ℚ) (c : Connection) (size : Nat) :
    Option (Connection × Event) :=
  let header := readU32 c.recBuff 0
  if header &&& 0xFFFFFFF0 = PROTOCOL_ID &&& 0xFFFFFFF0 then
    let c1 := { c with state := State.Connected, lastRec := now }
    let reliable : Bool := decide (header &&& 1 ≠ 0)
    let control : Bool := decide (header &&& 2 ≠ 0)
    let recNr := readU32 c.recBuff 4
    if reliable then
      if recNr = (c1.lastRecNrRel + 1) % 4294967296 then
        let c2 := { c1 with lastRecNrRel := recNr }
        if control then
          (processControlMessage P now c2).map (fun c3 => (c3, Event.control true recNr))
        else
          some (c2, Event.data true recNr (processMessage c2 size).1 (processMessage c2 size).2)
      else
        some (c1, Event.rejected true recNr)
    else
      if checkSeqNr recNr c1.lastRecNrURel then
        let c2 := { c1 with lastRecNrURel := recNr }
        if control then
          (processControlMessage P now c2).map (fun c3 => (c3, Event.control false recNr))
        else
          some (c2, Event.data false recNr (processMessage c2 size).1 (processMessage c2 size).2)
      else
        some (c1, Event.rejected false recNr)
  else
    some (c, Event.stray)

/-- `Socket::receive (recBuff, buffSize, ..)` on a queue whose head is `d`:
`recvfrom` copies at most `maxSize` bytes of the datagram and returns their
number (the POSIX behaviour: a longer datagram is cut to `maxSize` bytes).  The
bytes of `recBuff` behind the copy keep their old content. -/
def socketReceive (recBuff : List Byte) (maxSize : Nat) (d : Datagram) : Nat × List Byte :=
  (min d.length maxSize, writeBytes recBuff 0 (d.take (min d.length maxSize)))

/-- Result of the `while` loop of `Connection::receive`. -/
structure Drained where
  conn : Connection
  /-- datagrams still queued in the socket -/
  inbox : List Datagram
  /-- `some` when the loop was left by `return processMessage (..)` -/
  ret : Option (Int × List Byte)
  events : List Event

/-- The `while` loop of `Connection::receive` (source lines 96 to 141) on the
queue of the socket.  An empty queue and a datagram of length 0 both make
`Socket::receive` return a value that is not positive, which ends the loop. -/
def drain (P : Platform) (now : ℚ) : Connection → List Datagram → Option Drained
  | c, [] => some { conn := c, inbox := [], ret := none, events := [] }
  | c, d :: rest =>
    let r := socketReceive c.recBuff c.buffSize d
    if 0 < r.1 then
      if r.1 < c.buffSize then
        match processDatagram P now { c with recBuff := r.2 } r.1 with
        | none => none
        | some (c1, e) =>
          match e.returned with
          | some v => some { conn := c1, inbox := rest, ret := some v, events := [e] }
          | none => (drain P now c1 rest).map (fun t => { t with events := e :: t.events })
      else
        none
    else
      some { conn := { c with recBuff := r.2 }, inbox := rest, ret := none, events := [] }

/-- The keep-alive at the head of `Connection::receive` (source lines 84 to 93). -/
def keepAlive (P : Platform) (now : ℚ) (c : Connection) : Option (Connection × List Event) :=
  if now - c.lastPng > c.pngInterv then
    let data := byteOf Ping :: (u64le (P.bits now) ++ u32le c.lastRecNrRel)
    (send P now c data false true).map (fun c1 => ({ c1 with lastPng := now }, [Event.keepAlive]))
  else
    some (c, [])

/-- The end of `Connection::receive` (source lines 143 to 155): timeout, else
resend of the oldest frame that is not acknowledged.  `lastAckNrRel + 1` is a
`u32` sum, and the load of `sndTime` divides by `cacheCount`.  Both sides of the
resend test are results of a `double` operation, the difference
`System::time() - sndTime` and the product `ping * 1.1f`, and are compared as
rounded.  The length read from the cache is an `int` in the source and
`sndBuff` has `buffSize` bytes: the `memcpy` is inside `sndBuff` when the length
is at most `buffSize` (and below `2^31`, a larger one being a negative `int`);
with any other length the copy runs past `sndBuff`. -/
def afterDrain (P : Platform) (now : ℚ) (c : Connection) :
    Option (Connection × List Event) :=
  if now - c.lastRec > c.timeout then
    some (reset c, [Event.reset])
  else if c.lastSndNrRel ≠ c.lastAckNrRel then
    match cacheOffset c ((c.lastAckNrRel + 1) % 4294967296) with
    | none => none
    | some off =>
      let sndTime := P.value (readU64 c.sndCache off)
      if P.round (now - sndTime) > P.round (c.ping * RESEND_FACTOR) then
        let size := readU32 c.sndCache (off + 8)
        if size < 2147483648 ∧ size ≤ c.buffSize then
          let buf := writeBytes c.sndBuff 0 (readBytes c.sndCache (off + 12) size)
          some ({ c with sndBuff := buf, outbox := c.outbox ++ [readBytes buf 0 size] },
                [Event.resend])
        else
          none
      else
        some (c, [])
  else
    some (c, [])

/-- Result of one call of `Connection::receive`. -/
structure Received where
  conn : Connection
  /-- datagrams still queued in the socket -/
  inbox : List Datagram
  /-- the value returned -/
  ret : Int
  /-- the bytes copied to the buffer of the caller -/
  out : List Byte
  events : List Event

/-- `Connection::receive (data)` on the queue `inbox` of the socket. -/
def receive (P : Platform) (now : ℚ) (c : Connection) (inbox : List Datagram) :
    Option Received :=
  match keepAlive P now c with
  | none => none
  | some (c1, ev1) =>
    match drain P now c1 inbox with
    | none => none
    | some t =>
      match t.ret with
      | some (n, out) =>
        some { conn := t.conn, inbox := t.inbox, ret := n, out := out,
               events := ev1 ++ t.events }
      | none =>
        match afterDrain P now t.conn with
        | none => none
        | some r =>
          some { conn := r.1, inbox := t.inbox, ret := 0, out := [],
                 events := ev1 ++ t.events ++ r.2 }

/-- A series of calls of `receive`: before each call the datagrams `arrivals`
reach the socket, behind those still queued.  The result is the endpoint, the
queue and the events of all calls in order. -/
def receiveAll (P : Platform) :
    Connection → List Datagram → List (ℚ × List Datagram) → Option (Connection × List Datagram × List Event)
  | c, q, [] => some (c, q, [])
  | c, q, (now, arrivals) :: calls =>
    match receive P now c (q ++ arrivals) with
    | none => none
    | some r =>
      (receiveAll P r.conn r.inbox calls).map (fun t => (t.1, t.2.1, r.events ++ t.2.2))

end Connection

/-! ## Notions used in the statements -/

/-- The acceptance test as the specification words it: `(next - last) mod 2^32`
lies strictly between 0 and `2^30`. -/
def inForwardWindow (next last : Nat) : Bool :=
  decide (0 < (next + 4294967296 - last) % 4294967296)
    && decide ((next + 4294967296 - last) % 4294967296 < 1073741824)

/-- A platform for the concrete runs: a `double` is stored as the 64-bit integer
below it and loaded as that integer, and the unwritten bytes are zero.  Nothing
is rounded: in the runs that reach the resend test the times are small integers
or `1 + 1.1f`, the send times are 0 or 1 and `ping` is -1 or 1, so that the
difference and the product of the test are `double` values as they stand. -/
def tickPlatform : Platform where
  bits := fun q => (Int.toNat ⌊q⌋) % 18446744073709551616
  value := fun n => (n : ℚ)
  round := fun q => q
  uninit := [0, 0, 0, 0]

/-- An unreliable data datagram: tag `0x50445540`, sequence number 3, payload `[7]`. -/
def urelData3 : Datagram := [0x40, 0x55, 0x44, 0x50, 3, 0, 0, 0, 7]

/-- Whether the event is the acceptance of a datagram: a control message
dispatched or a data message returned. -/
def Event.accepted : Event → Bool
  | Event.control _ _ => true
  | Event.data _ _ _ _ => true
  | _ => false

/-- A reliable data datagram: tag `0x50445541`, sequence number 1, payload `[9]`. -/
def relData1 : Datagram := [0x41, 0x55, 0x44, 0x50, 1, 0, 0, 0, 9]

/-- A new endpoint (timeout 10, ping interval 1000, 32-byte buffers, 2 cache
slots) with `relData1` read into `recBuff`. -/
def endpointWithRelData1 : Connection :=
  { Connection.new 10 1000 32 2 with
    recBuff := (Connection.socketReceive (Connection.new 10 1000 32 2).recBuff 32 relData1).2 }

/-- The value of `lastRecNrRel` after the event, `last` being the value before:
an accepted reliable datagram sets it to its number and `reset` to 0. -/
def Event.relNext (last : Nat) : Event → Nat
  | Event.control true nr => nr
  | Event.data true nr _ _ => nr
  | Event.reset => 0
  | _ => last

/-- Whether the event respects the order of the reliable stream, `last` being
the value of `lastRecNrRel` before: an accepted reliable datagram has the number
`last + 1` modulo `2^32`. -/
def Event.relOk (last : Nat) : Event → Bool
  | Event.control true nr => nr == (last + 1) % 4294967296
  | Event.data true nr _ _ => nr == (last + 1) % 4294967296
  | _ => true

/-- The value of `lastRecNrRel` after the events. -/
def relAfter : Nat → List Event → Nat
  | last, [] => last
  | last, e :: es => relAfter (e.relNext last) es

/-- Every reliable datagram accepted in the events has the number that follows
the one accepted before it, or follows `last` for the first, or is 1 for the
first after a `reset`. -/
def relInOrder : Nat → List Event → Bool
  | _, [] => true
  | last, e :: es => e.relOk last && relInOrder (e.relNext last) es

/-- Sequence numbers of the reliable data messages returned, in order. -/
def relDataSeqs : List Event → List Nat
  | [] => []
  | Event.data true nr _ _ :: es => nr :: relDataSeqs es
  | _ :: es => relDataSeqs es

/-- Each number of the list is one more, modulo `2^32`, than the one before it. -/
def stepsByOne : List Nat → Bool
  | a :: b :: l => (b == (a + 1) % 4294967296) && stepsByOne (b :: l)
  | _ => true

/-- A reliable control datagram: tag `0x50445543`, sequence number 2, a Pong
payload of 13 bytes. -/
def relPong2 : Datagram :=
  [0x43, 0x55, 0x44, 0x50, 2, 0, 0, 0, 1, 0, 0, 0, 0, 0, 0, 0, 0, 0, 0, 0, 0]

/-- A reliable data datagram: tag `0x50445541`, sequence number 3, payload `[9]`. -/
def relData3 : Datagram := [0x41, 0x55, 0x44, 0x50, 3, 0, 0, 0, 9]

/-- The order `lastAckNrRel ≤ lastSndNrRel` under the wrap-safe comparison:
`(lastSndNrRel - lastAckNrRel) mod 2^32 < 2^30`. -/
def ackBehindSnd (c : Connection) : Bool :=
  decide ((c.lastSndNrRel + 4294967296 - c.lastAckNrRel) % 4294967296 < 1073741824)

/-- An unreliable Ping datagram: tag `0x50445542`, sequence number 0, payload
Ping, a timestamp of 8 bytes, cumulative ack 100. -/
def pingAck100 : Datagram :=
  [0x42, 0x55, 0x44, 0x50, 0, 0, 0, 0, 0, 0, 0, 0, 0, 0, 0, 0, 0, 100, 0, 0, 0]

/-- An unreliable Ping datagram: tag `0x50445542`, sequence number 0, payload
Ping, a timestamp of 8 bytes, cumulative ack 3. -/
def pingAck3 : Datagram :=
  [0x42, 0x55, 0x44, 0x50, 0, 0, 0, 0, 0, 0, 0, 0, 0, 0, 0, 0, 0, 3, 0, 0, 0]

/-- An endpoint that has sent five reliable frames, none acknowledged, with
`pingAck3` read into `recBuff`. -/
def endpointWithPingAck3 : Connection :=
  { Connection.new 10 1000 32 2 with
    lastSndNrRel := 5
    recBuff := (Connection.socketReceive (Connection.new 10 1000 32 2).recBuff 32 pingAck3).2 }

/-- Reliable data sends in a row, `send (data, size, true)` for each element of
`msgs`, given as the time of the call and the payload. -/
def Connection.sendAll (P : Platform) : Connection → List (ℚ × List Byte) → Option Connection
  | c, [] => some c
  | c, m :: rest =>
    match Connection.send P m.1 c m.2 true false with
    | none => none
    | some c1 => Connection.sendAll P c1 rest

/-- The length field of the cache entry at slot `slot`: offset 8 of
`slot * buffSize`. -/
def Connection.cachedLength (c : Connection) (slot : Nat) : Nat :=
  readU32 c.sndCache (slot * c.buffSize + 8)

/-- The first `n` frame bytes of the cache entry at slot `slot`: offset 12 of
`slot * buffSize`. -/
def Connection.cachedFrame (c : Connection) (slot n : Nat) : List Byte :=
  readBytes c.sndCache (slot * c.buffSize + 12) n

/-- The send time field of the cache entry at slot `slot`, as a 64-bit pattern:
offset 0 of `slot * buffSize`. -/
def Connection.cachedTime (c : Connection) (slot : Nat) : Nat :=
  readU64 c.sndCache (slot * c.buffSize)

/-- A new endpoint with two cache slots whose reliable counter stands one below
the wrap. -/
def endpointNearWrap : Connection :=
  { Connection.new 10 1000 32 2 with lastSndNrRel := 4294967295 }

/-- Whether the event leaves the reliable stream alone: it is neither an accepted
reliable datagram nor a `reset`. -/
def Event.relNeutral : Event → Bool
  | Event.control true _ => false
  | Event.data true _ _ _ => false
  | Event.reset => false
  | _ => true

/-- The ping after the first sample `p` and the further samples, as the
specification words it: `ping_n = 0.1 * ping_(n-1) + 0.9 * s_n`. -/
def specPingFrom (p : ℚ) : List ℚ → ℚ
  | [] => p
  | s :: ss => specPingFrom (1 / 10 * p + 9 / 10 * s) ss

/-- The ping after the RTT samples `s_1, s_2, ..`, as the specification words
it: `ping_1 = s_1`, then `specPingFrom`; unknown (`none`) without a sample. -/
def specPing : List ℚ → Option ℚ
  | [] => none
  | s :: ss => some (specPingFrom s ss)

/-- Pong datagrams dispatched in a row: each element is the time of the call and
the content of `recBuff` when `processControlMessage` is called. -/
def Connection.pongAll (P : Platform) : Connection → List (ℚ × List Byte) → Option Connection
  | c, [] => some c
  | c, m :: rest =>
    match Connection.processControlMessage P m.1 { c with recBuff := m.2 } with
    | none => none
    | some c1 => Connection.pongAll P c1 rest

/-- The RTT sample of a Pong: `now` minus the timestamp in the bytes 9 to 16 of
the receive buffer. -/
def pongSample (P : Platform) (m : ℚ × List Byte) : ℚ :=
  m.1 - P.value (readU64 m.2 (HEADER_SIZE + 1))

/-- A receive buffer with a Pong whose timestamp is the pattern 1. -/
def pongStamp1 : List Byte :=
  [0x42, 0x55, 0x44, 0x50, 0, 0, 0, 0, 1, 1, 0, 0, 0, 0, 0, 0, 0, 0, 0, 0, 0]

/-- An unreliable Ping datagram: tag `0x50445542`, sequence number 0, payload
Ping, a timestamp of 8 bytes, cumulative ack 1. -/
def pingAck1 : Datagram :=
  [0x42, 0x55, 0x44, 0x50, 0, 0, 0, 0, 0, 0, 0, 0, 0, 0, 0, 0, 0, 1, 0, 0, 0]

/-- An unreliable Pong datagram: tag `0x50445542`, sequence number 1, payload
Pong, the timestamp pattern 1 and four more bytes. -/
def pongSeq1 : Datagram :=
  [0x42, 0x55, 0x44, 0x50, 1, 0, 0, 0, 1, 1, 0, 0, 0, 0, 0, 0, 0, 0, 0, 0, 0]

/-- A run that leaves one reliable frame outstanding with a known ping: a new
endpoint (timeout 10, ping interval 1000, 32-byte buffers, 2 cache slots) sends
the payload `[7]` reliably at time 1 and calls `receive` at time 2, when the Pong
`pongStamp1` with the timestamp 1 has arrived. -/
def unackedRun : Option Connection :=
  (Connection.send tickPlatform 1 (Connection.new 10 1000 32 2) [7] true false).bind
    (fun c => (Connection.receive tickPlatform 2 c [pongStamp1]).map (fun r => r.conn))

/-- The endpoint that `unackedRun` returns: `lastSndNrRel = 1`, `lastAckNrRel = 0`,
`ping = 1`, `lastRec = 2`, and the frame of the send in the cache slot 1 with the
send time 1. -/
def endpointUnackedPing : Connection :=
  unackedRun.get (by with_unfolding_all decide)

/-- The endpoint after two reliable sends at time 0, of the payloads `[7]` and
`[8, 9]`, on a new endpoint (timeout 10, ping interval 1000, 32-byte buffers, 2
cache slots); nothing is acknowledged and `ping` is unknown. -/
def endpointTwoUnacked : Connection :=
  (Connection.sendAll tickPlatform (Connection.new 10 1000 32 2) [(0, [7]), (0, [8, 9])]).get
    (by decide)

/-- A run that moves every field `reset` writes: a new endpoint (timeout 10, ping
interval 50, 32-byte buffers, 2 cache slots) sends two reliable frames at time 0
and calls `receive` at time 60, when a Ping with ack 1, a Pong with the timestamp
1 and the reliable data datagram `relData1` have arrived; the call sends the
keep-alive and the Pong reply and returns the data. -/
def busyRun : Option Connection :=
  (Connection.sendAll tickPlatform (Connection.new 10 50 32 2) [(0, [7]), (0, [8, 9])]).bind
    (fun c => (Connection.receive tickPlatform 60 c [pingAck1, pongSeq1, relData1]).map
      (fun r => r.conn))

/-- The endpoint that `busyRun` returns. -/
def endpointBusy : Connection :=
  busyRun.get (by with_unfolding_all decide)

/-- A payload of 24 bytes whose bytes 12 to 19 are zero and whose bytes 20 to 23
are the `u32` 100. -/
def payloadOverLength : List Byte :=
  List.replicate 20 0 ++ [100, 0, 0, 0]

/-! ## Memory lemmas -/

theorem getD_map_range (f : Nat → Byte) (n a : Nat) :
    ((List.range n).map f).getD a 0 = if a < n then f a else 0 := by
  rw [List.getD_eq_getElem?_getD, List.getElem?_map]
  split_ifs with h
  · simp [List.getElem?_range h]
  · have : (List.range n)[a]? = none := by
      apply List.getElem?_eq_none
      simp
      omega
    simp [this]

theorem getD_of_length_le (l : List Byte) (a : Nat) (h : l.length ≤ a) : l.getD a 0 = 0 := by
  rw [List.getD_eq_getElem?_getD, List.getElem?_eq_none h]
  rfl

theorem length_writeBytes (mem : List Byte) (off : Nat) (bs : List Byte) :
    (writeBytes mem off bs).length = max mem.length (off + bs.length) := by
  simp [writeBytes]

theorem length_readBytes (mem : List Byte) (off n : Nat) : (readBytes mem off n).length = n := by
  simp [readBytes]

theorem getD_writeBytes (mem : List Byte) (off : Nat) (bs : List Byte) (a : Nat) :
    (writeBytes mem off bs).getD a 0
      = if off ≤ a ∧ a < off + bs.length then bs.getD (a - off) 0 else mem.getD a 0 := by
  unfold writeBytes
  rw [getD_map_range]
  by_cases h : a < max mem.length (off + bs.length)
  · simp [h]
  · have h1 : mem.length ≤ a := by omega
    have h2 : ¬ (off ≤ a ∧ a < off + bs.length) := by omega
    simp only [h, h2, if_false]
    exact (getD_of_length_le mem a h1).symm

theorem getD_readBytes (mem : List Byte) (off n i : Nat) :
    (readBytes mem off n).getD i 0 = if i < n then mem.getD (off + i) 0 else 0 := by
  unfold readBytes
  rw [getD_map_range]

theorem ext_getD (l1 l2 : List Byte) (hl : l1.length = l2.length)
    (h : ∀ i, i < l1.length → l1.getD i 0 = l2.getD i 0) : l1 = l2 := by
  apply List.ext_getElem hl
  intro i h1 h2
  have := h i h1
  rw [List.getD_eq_getElem l1 0 h1, List.getD_eq_getElem l2 0 h2] at this
  exact this

theorem readBytes_self (l : List Byte) : readBytes l 0 l.length = l := by
  apply ext_getD
  · simp [length_readBytes]
  · intro i hi
    rw [length_readBytes] at hi
    rw [getD_readBytes]
    simp [hi]

theorem readBytes_writeBytes_same (mem : List Byte) (off : Nat) (bs : List Byte) :
    readBytes (writeBytes mem off bs) off bs.length = bs := by
  apply ext_getD
  · simp [length_readBytes]
  · intro i hi
    rw [length_readBytes] at hi
    rw [getD_readBytes, getD_writeBytes]
    have h : off ≤ off + i ∧ off + i < off + bs.length := by omega
    simp [hi, h]

theorem readBytes_writeBytes_disjoint (mem : List Byte) (off : Nat) (bs : List Byte)
    (off2 n : Nat) (h : off2 + n ≤ off ∨ off + bs.length ≤ off2) :
    readBytes (writeBytes mem off bs) off2 n = readBytes mem off2 n := by
  apply ext_getD
  · simp [length_readBytes]
  · intro i hi
    rw [length_readBytes] at hi
    rw [getD_readBytes, getD_readBytes, getD_writeBytes]
    have h2 : ¬ (off ≤ off2 + i ∧ off2 + i < off + bs.length) := by omega
    simp [hi, h2]

/-! ## Sequence number test -/

/-- What `checkSeqNr` computes on `u32` arguments, by cases on the overflow of
`last + REC_NR_WINDOW`: without overflow it holds for `next` in the open interval
from `last` to `last + REC_NR_WINDOW` and also for every `next ≤ last` below
`REC_NR_WINDOW`; with overflow it holds exactly for `next` below the wrapped sum. -/
theorem checkSeqNr_iff (next last : Nat) (hl : last < 4294967296) :
    Connection.checkSeqNr next last = true ↔
      (last + 1073741823 < 4294967296 ∧
          ((last < next ∧ next < last + 1073741823) ∨ (next ≤ last ∧ next < 1073741823)))
        ∨ (4294967296 ≤ last + 1073741823 ∧ next + 4294967296 < last + 1073741823) := by
  simp only [Connection.checkSeqNr, REC_NR_WINDOW, Bool.and_eq_true, Bool.or_eq_true,
    decide_eq_true_eq]
  omega

/-- C1, evaluated on the source: `checkSeqNr (3, 3)` is true, so a sequence number
equal to the last one passes the test, although `(3 - 3) mod 2^32 = 0` is not
strictly between 0 and `2^30`; `checkSeqNr (0, 5)` is true for an older number;
`checkSeqNr (last + 5, last)` is false for `last = 2^32 - 10`, inside the window;
and the distance `2^30 - 1` is refused, the constant being `2^30 - 1`. -/
theorem checkSeqNr_not_forward_window :
    (Connection.checkSeqNr 3 3 = true ∧ inForwardWindow 3 3 = false)
      ∧ (Connection.checkSeqNr 0 5 = true ∧ inForwardWindow 0 5 = false)
      ∧ (Connection.checkSeqNr 4294967291 4294967286 = false
          ∧ inForwardWindow 4294967291 4294967286 = true)
      ∧ (Connection.checkSeqNr 1073741823 0 = false ∧ inForwardWindow 1073741823 0 = true)
      ∧ REC_NR_WINDOW = 1073741823 := by
  decide

/-- C2, evaluated on the source: the same unreliable data datagram, sequence
number 3, is queued for two calls of `receive` in a row on a new endpoint; both
calls return its payload, the second while `lastRecNrURel` is already 3. -/
theorem receive_returns_duplicate_unreliable :
    (Connection.receiveAll tickPlatform (Connection.new 10 1 32 2) []
        [(0, [urelData3]), (0, [urelData3])]).map (fun t => t.2.2)
      = some [Event.data false 3 1 [7], Event.data false 3 1 [7]]
    ∧ ((Connection.receive tickPlatform 0 (Connection.new 10 1 32 2) [urelData3]).map
        (fun r => r.conn.lastRecNrURel)) = some 3 := by
  with_unfolding_all decide

/-! ## Fields that `send` and `processControlMessage` leave alone -/

theorem send_isSome (P : Platform) (now : ℚ) (c : Connection) (data : List Byte)
    (reliable control : Bool) (h : data.length + HEADER_SIZE ≤ c.buffSize)
    (hcc : reliable = true → 0 < c.cacheCount) :
    (Connection.send P now c data reliable control).isSome = true := by
  unfold Connection.send Connection.cacheOffset
  rw [if_pos h]
  cases reliable
  · simp
  · have h0 : c.cacheCount ≠ 0 := Nat.pos_iff_ne_zero.mp (hcc rfl)
    simp [h0]

theorem send_frame_fields (P : Platform) (now : ℚ) (c c1 : Connection) (data : List Byte)
    (reliable control : Bool) (h : Connection.send P now c data reliable control = some c1) :
    c1.timeout = c.timeout ∧ c1.pngInterv = c.pngInterv ∧ c1.buffSize = c.buffSize
      ∧ c1.cacheCount = c.cacheCount ∧ c1.recBuff = c.recBuff
      ∧ c1.lastAckNrRel = c.lastAckNrRel ∧ c1.lastRecNrRel = c.lastRecNrRel
      ∧ c1.lastRecNrURel = c.lastRecNrURel ∧ c1.state = c.state ∧ c1.ping = c.ping
      ∧ c1.lastRec = c.lastRec ∧ c1.lastPng = c.lastPng := by
  unfold Connection.send at h
  split at h
  · cases reliable
    · simp only [Bool.false_eq_true, if_false, Option.some.injEq] at h
      subst h
      simp
    · simp only [if_true] at h
      split at h
      · exact absurd h (by simp)
      · simp only [Option.some.injEq] at h
        subst h
        simp
  · exact absurd h (by simp)

/-- A reliable `send` that returns ran on an endpoint with a cache. -/
theorem send_reliable_cacheCount (P : Platform) (now : ℚ) (c c1 : Connection) (data : List Byte)
    (control : Bool) (h : Connection.send P now c data true control = some c1) :
    0 < c.cacheCount := by
  unfold Connection.send Connection.cacheOffset at h
  by_cases h0 : c.cacheCount = 0
  · split at h
    · simp [h0] at h
    · exact absurd h (by simp)
  · exact Nat.pos_of_ne_zero h0

theorem processControlMessage_lastRecNrRel (P : Platform) (now : ℚ) (c c1 : Connection)
    (h : Connection.processControlMessage P now c = some c1) :
    c1.lastRecNrRel = c.lastRecNrRel ∧ c1.lastRecNrURel = c.lastRecNrURel
      ∧ c1.recBuff = c.recBuff ∧ c1.buffSize = c.buffSize ∧ c1.cacheCount = c.cacheCount
      ∧ c1.state = c.state ∧ c1.lastRec = c.lastRec ∧ c1.lastPng = c.lastPng
      ∧ c1.timeout = c.timeout ∧ c1.pngInterv = c.pngInterv := by
  unfold Connection.processControlMessage at h
  simp only at h
  split at h
  · have hs := send_frame_fields P now _ c1 _ false true h
    split at hs <;> simp_all
  · split at h
    · split at h <;> (simp only [Option.some.injEq] at h; subst h; simp)
    · simp only [Option.some.injEq] at h
      subst h
      simp

theorem processControlMessage_isSome (P : Platform) (now : ℚ) (c : Connection)
    (h : HEADER_SIZE + 13 ≤ c.buffSize) :
    (Connection.processControlMessage P now c).isSome = true := by
  unfold Connection.processControlMessage
  simp only
  split
  · apply send_isSome
    · have hl : (byteOf Pong :: (readBytes c.recBuff (HEADER_SIZE + 1) 8
          ++ readBytes P.uninit 0 4)).length = 13 := by
        simp [length_readBytes]
      rw [hl]
      split <;> (simp only [HEADER_SIZE] at h ⊢; omega)
    · intro hf
      exact absurd hf (by decide)
  · split
    · split <;> simp
    · simp

/-! ## Reliable receive -/

/-- The loop body on a datagram that passes the protocol id test with the
reliable flag set. -/
theorem processDatagram_reliable (P : Platform) (now : ℚ) (c : Connection) (size : Nat)
    (hid : readU32 c.recBuff 0 &&& 0xFFFFFFF0 = PROTOCOL_ID &&& 0xFFFFFFF0)
    (hrel : readU32 c.recBuff 0 &&& 1 ≠ 0) (c1 c2 : Connection)
    (h1 : c1 = { c with state := State.Connected, lastRec := now })
    (h2 : c2 = { c1 with lastRecNrRel := readU32 c.recBuff 4 }) :
    Connection.processDatagram P now c size
      = if readU32 c.recBuff 4 = (c.lastRecNrRel + 1) % 4294967296 then
          if readU32 c.recBuff 0 &&& 2 ≠ 0 then
            (Connection.processControlMessage P now c2).map
              (fun c3 => (c3, Event.control true (readU32 c.recBuff 4)))
          else
            some (c2, Event.data true (readU32 c.recBuff 4)
              (Connection.processMessage c2 size).1 (Connection.processMessage c2 size).2)
        else
          some (c1, Event.rejected true (readU32 c.recBuff 4)) := by
  subst h2
  subst h1
  unfold Connection.processDatagram
  simp only [hid, hrel, if_true, ne_eq, not_false_eq_true, decide_True, decide_not,
    Bool.not_eq_true', decide_eq_false_iff_not, ite_not]

/-- C3: for a datagram in `recBuff` that passes the protocol id test with the
reliable flag set, the loop body of `receive` accepts it (dispatches it as a
control message or returns it as a data message) exactly when its sequence number
is `lastRecNrRel + 1` modulo `2^32`.  On accept `lastRecNrRel` becomes that number
(and the body completes when the buffer has room for the Pong reply, 21 bytes); on
reject the endpoint only has `state = Connected` and `lastRec = now` set: the
counter is unchanged, nothing is returned and nothing dispatched. -/
theorem processDatagram_reliable_in_order (P : Platform) (now : ℚ) (c : Connection)
    (size : Nat)
    (hid : readU32 c.recBuff 0 &&& 0xFFFFFFF0 = PROTOCOL_ID &&& 0xFFFFFFF0)
    (hrel : readU32 c.recBuff 0 &&& 1 ≠ 0) :
    (∀ c1 e, Connection.processDatagram P now c size = some (c1, e) →
        (e.accepted = true ↔ readU32 c.recBuff 4 = (c.lastRecNrRel + 1) % 4294967296))
    ∧ (readU32 c.recBuff 4 = (c.lastRecNrRel + 1) % 4294967296 →
        (∀ c1 e, Connection.processDatagram P now c size = some (c1, e) →
          c1.lastRecNrRel = readU32 c.recBuff 4)
        ∧ (HEADER_SIZE + 13 ≤ c.buffSize →
            (Connection.processDatagram P now c size).isSome = true))
    ∧ (readU32 c.recBuff 4 ≠ (c.lastRecNrRel + 1) % 4294967296 →
        Connection.processDatagram P now c size
          = some ({ c with state := State.Connected, lastRec := now },
                  Event.rejected true (readU32 c.recBuff 4))) := by
  have key := processDatagram_reliable P now c size hid hrel _ _ rfl rfl
  refine ⟨?_, ?_, ?_⟩
  · intro c1 e h
    rw [key] at h
    split at h
    · rename_i hnr
      simp only [hnr, iff_true]
      split at h
      · rw [Option.map_eq_some'] at h
        obtain ⟨c3, _, h3⟩ := h
        simp only [Prod.mk.injEq] at h3
        rw [← h3.2]
        rfl
      · simp only [Option.some.injEq, Prod.mk.injEq] at h
        rw [← h.2]
        rfl
    · rename_i hnr
      simp only [hnr, iff_false]
      simp only [Option.some.injEq, Prod.mk.injEq] at h
      rw [← h.2]
      simp [Event.accepted]
  · intro hnr
    refine ⟨?_, ?_⟩
    · intro c1 e h
      rw [key, if_pos hnr] at h
      split at h
      · rw [Option.map_eq_some'] at h
        obtain ⟨c3, hp, h3⟩ := h
        simp only [Prod.mk.injEq] at h3
        rw [← h3.1]
        exact (processControlMessage_lastRecNrRel P now _ c3 hp).1
      · simp only [Option.some.injEq, Prod.mk.injEq] at h
        rw [← h.1]
    · intro hb
      rw [key, if_pos hnr]
      split
      · rw [Option.isSome_map']
        exact processControlMessage_isSome P now _ hb
      · rfl
  · intro hnr
    rw [key, if_neg hnr]

/-- An instance of C3: `relData1` at a new endpoint passes the protocol id test
with the reliable flag set, carries the number `0 + 1`, and the loop body
completes. -/
theorem processDatagram_reliable_in_order_witness :
    readU32 endpointWithRelData1.recBuff 0 &&& 0xFFFFFFF0 = PROTOCOL_ID &&& 0xFFFFFFF0
      ∧ readU32 endpointWithRelData1.recBuff 0 &&& 1 ≠ 0
      ∧ (Connection.processDatagram tickPlatform 0 endpointWithRelData1 9).isSome = true :=
  ⟨by decide, by decide,
    ((processDatagram_reliable_in_order tickPlatform 0 endpointWithRelData1 9
      (by decide) (by decide)).2.1 (by decide)).2 (by decide)⟩

/-! ## Order of the reliable stream -/

/-- C4 as stated fails on the source.  First run: a reliable data message with
number 1 is returned, the next call times out and resets the endpoint, and the
call after returns a reliable data message with number 1 again.  Second run: the
numbers 1 (data), 2 (control, dispatched and not returned) and 3 (data) arrive;
the data messages returned carry 1 and 3. -/
theorem reliable_data_not_stepwise :
    (Connection.receiveAll tickPlatform (Connection.new 10 1000 32 2) []
        [(0, [relData1]), (100, []), (200, [relData1])]).map (fun t => t.2.2)
      = some [Event.data true 1 1 [9], Event.reset, Event.data true 1 1 [9]]
    ∧ stepsByOne (relDataSeqs [Event.data true 1 1 [9], Event.reset, Event.data true 1 1 [9]])
        = false
    ∧ (Connection.receiveAll tickPlatform (Connection.new 10 1000 32 2) []
        [(0, [relData1]), (1, [relPong2, relData3])]).map (fun t => relDataSeqs t.2.2)
      = some [1, 3]
    ∧ stepsByOne [1, 3] = false := by
  with_unfolding_all decide

theorem relAfter_append (last : Nat) (a b : List Event) :
    relAfter last (a ++ b) = relAfter (relAfter last a) b := by
  induction a generalizing last with
  | nil => rfl
  | cons e es ih => simp [relAfter, ih]

theorem relInOrder_append (last : Nat) (a b : List Event) :
    relInOrder last (a ++ b) = (relInOrder last a && relInOrder (relAfter last a) b) := by
  induction a generalizing last with
  | nil => simp [relInOrder, relAfter]
  | cons e es ih => simp [relInOrder, relAfter, ih, Bool.and_assoc]

/-- The loop body keeps the reliable stream in order. -/
theorem processDatagram_rel (P : Platform) (now : ℚ) (c c1 : Connection) (size : Nat)
    (e : Event) (h : Connection.processDatagram P now c size = some (c1, e)) :
    e.relOk c.lastRecNrRel = true ∧ c1.lastRecNrRel = e.relNext c.lastRecNrRel := by
  unfold Connection.processDatagram at h
  simp only at h
  split at h
  · split at h
    · split at h
      · split at h
        · rw [Option.map_eq_some'] at h
          obtain ⟨c3, hp, h3⟩ := h
          simp only [Prod.mk.injEq] at h3
          obtain ⟨rfl, rfl⟩ := h3
          have := (processControlMessage_lastRecNrRel P now _ c3 hp).1
          simp_all [Event.relOk, Event.relNext]
        · simp only [Option.some.injEq, Prod.mk.injEq] at h
          obtain ⟨rfl, rfl⟩ := h
          simp_all [Event.relOk, Event.relNext]
      · simp only [Option.some.injEq, Prod.mk.injEq] at h
        obtain ⟨rfl, rfl⟩ := h
        simp [Event.relOk, Event.relNext]
    · split at h
      · split at h
        · rw [Option.map_eq_some'] at h
          obtain ⟨c3, hp, h3⟩ := h
          simp only [Prod.mk.injEq] at h3
          obtain ⟨rfl, rfl⟩ := h3
          have := (processControlMessage_lastRecNrRel P now _ c3 hp).1
          simp_all [Event.relOk, Event.relNext]
        · simp only [Option.some.injEq, Prod.mk.injEq] at h
          obtain ⟨rfl, rfl⟩ := h
          simp [Event.relOk, Event.relNext]
      · simp only [Option.some.injEq, Prod.mk.injEq] at h
        obtain ⟨rfl, rfl⟩ := h
        simp [Event.relOk, Event.relNext]
  · simp only [Option.some.injEq, Prod.mk.injEq] at h
    obtain ⟨rfl, rfl⟩ := h
    simp [Event.relOk, Event.relNext]

theorem drain_rel (P : Platform) (now : ℚ) (inbox : List Datagram) :
    ∀ (c : Connection) (t : Connection.Drained), Connection.drain P now c inbox = some t →
      relInOrder c.lastRecNrRel t.events = true
        ∧ t.conn.lastRecNrRel = relAfter c.lastRecNrRel t.events := by
  induction inbox with
  | nil =>
    intro c t h
    simp only [Connection.drain, Option.some.injEq] at h
    subst h
    simp [relInOrder, relAfter]
  | cons d rest ih =>
    intro c t h
    simp only [Connection.drain] at h
    split at h
    · split at h
      · split at h
        · exact absurd h (by simp)
        · rename_i c1 e hpd
          have hstep := processDatagram_rel P now _ c1 _ e hpd
          simp only at hstep
          split at h
          · simp only [Option.some.injEq] at h
            subst h
            simp [relInOrder, relAfter, hstep.1, hstep.2]
          · rw [Option.map_eq_some'] at h
            obtain ⟨t1, ht1, rfl⟩ := h
            have := ih c1 t1 ht1
            simp [relInOrder, relAfter, hstep.1, ← hstep.2, this.1, this.2]
      · exact absurd h (by simp)
    · simp only [Option.some.injEq] at h
      subst h
      simp [relInOrder, relAfter]

theorem keepAlive_rel (P : Platform) (now : ℚ) (c c1 : Connection) (ev : List Event)
    (h : Connection.keepAlive P now c = some (c1, ev)) :
    c1.lastRecNrRel = c.lastRecNrRel ∧ (ev = [] ∨ ev = [Event.keepAlive]) := by
  unfold Connection.keepAlive at h
  split at h
  · rw [Option.map_eq_some'] at h
    obtain ⟨c2, hs, h2⟩ := h
    simp only [Prod.mk.injEq] at h2
    obtain ⟨rfl, rfl⟩ := h2
    have := send_frame_fields P now c c2 _ false true hs
    simp [this]
  · simp only [Option.some.injEq, Prod.mk.injEq] at h
    obtain ⟨rfl, rfl⟩ := h
    simp

theorem afterDrain_rel (P : Platform) (now : ℚ) (c : Connection) (r : Connection × List Event)
    (h : Connection.afterDrain P now c = some r) :
    relInOrder c.lastRecNrRel r.2 = true
      ∧ r.1.lastRecNrRel = relAfter c.lastRecNrRel r.2 := by
  unfold Connection.afterDrain at h
  split at h
  · simp only [Option.some.injEq] at h
    subst h
    simp [relInOrder, relAfter, Event.relOk, Event.relNext, Connection.reset]
  · split at h
    · split at h
      · exact absurd h (by simp)
      · simp only at h
        split at h
        · split at h
          · simp only [Option.some.injEq] at h
            subst h
            simp [relInOrder, relAfter, Event.relOk, Event.relNext]
          · exact absurd h (by simp)
        · simp only [Option.some.injEq] at h
          subst h
          simp [relInOrder, relAfter]
    · simp only [Option.some.injEq] at h
      subst h
      simp [relInOrder, relAfter]

theorem receive_rel (P : Platform) (now : ℚ) (c : Connection) (inbox : List Datagram)
    (r : Connection.Received) (h : Connection.receive P now c inbox = some r) :
    relInOrder c.lastRecNrRel r.events = true
      ∧ r.conn.lastRecNrRel = relAfter c.lastRecNrRel r.events := by
  unfold Connection.receive at h
  split at h
  · exact absurd h (by simp)
  · rename_i c1 ev1 hk
    have hk1 := keepAlive_rel P now c c1 ev1 hk
    have hev1 : relInOrder c.lastRecNrRel ev1 = true ∧ relAfter c.lastRecNrRel ev1 = c1.lastRecNrRel := by
      rcases hk1.2 with rfl | rfl <;> simp [relInOrder, relAfter, Event.relOk, Event.relNext, hk1.1]
    split at h
    · exact absurd h (by simp)
    · rename_i t hd
      have hd1 := drain_rel P now inbox c1 t hd
      split at h
      · simp only [Option.some.injEq] at h
        subst h
        simp [relInOrder_append, relAfter_append, hev1.1, hev1.2, hd1.1, hd1.2]
      · split at h
        · exact absurd h (by simp)
        · rename_i r1 hr1
          simp only [Option.some.injEq] at h
          subst h
          have ha := afterDrain_rel P now t.conn r1 hr1
          simp only [relInOrder_append, relAfter_append, hev1.1, hev1.2, hd1.1, ← hd1.2, ha.1,
            ha.2, Bool.and_self, and_self]

theorem receiveAll_rel (P : Platform) (calls : List (ℚ × List Datagram)) :
    ∀ (c : Connection) (q : List Datagram) (c1 : Connection) (q1 : List Datagram)
      (evs : List Event), Connection.receiveAll P c q calls = some (c1, q1, evs) →
      relInOrder c.lastRecNrRel evs = true
        ∧ c1.lastRecNrRel = relAfter c.lastRecNrRel evs := by
  induction calls with
  | nil =>
    intro c q c1 q1 evs h
    simp only [Connection.receiveAll, Option.some.injEq, Prod.mk.injEq] at h
    obtain ⟨rfl, _, rfl⟩ := h
    simp [relInOrder, relAfter]
  | cons call calls ih =>
    intro c q c1 q1 evs h
    obtain ⟨now, arrivals⟩ := call
    simp only [Connection.receiveAll] at h
    split at h
    · exact absurd h (by simp)
    · rename_i r hr
      rw [Option.map_eq_some'] at h
      obtain ⟨t, ht, h2⟩ := h
      simp only [Prod.mk.injEq] at h2
      obtain ⟨rfl, rfl, rfl⟩ := h2
      have h1 := receive_rel P now c (q ++ arrivals) r hr
      have h3 := ih r.conn r.inbox t.1 t.2.1 t.2.2 ht
      simp [relInOrder_append, relAfter_append, h1.1, ← h1.2, h3.1, h3.2]

theorem relAfter_neutral (last : Nat) (mid : List Event)
    (h : ∀ e ∈ mid, e.relNeutral = true) : relAfter last mid = last := by
  induction mid with
  | nil => rfl
  | cons e es ih =>
    have he := h e (List.mem_cons_self _ _)
    have hes : ∀ x ∈ es, x.relNeutral = true := fun x hx => h x (List.mem_cons_of_mem _ hx)
    have hn : e.relNext last = last := by
      cases e with
      | control rel nr => cases rel <;> simp_all [Event.relNeutral, Event.relNext]
      | data rel nr n out => cases rel <;> simp_all [Event.relNeutral, Event.relNext]
      | reset => simp [Event.relNeutral] at he
      | keepAlive => rfl
      | stray => rfl
      | rejected rel nr => rfl
      | resend => rfl
    simp only [relAfter, hn]
    exact ih hes

theorem relInOrder_neutral (last : Nat) (mid rest : List Event)
    (h : ∀ e ∈ mid, e.relNeutral = true) (ho : relInOrder last (mid ++ rest) = true) :
    relInOrder last rest = true := by
  rw [relInOrder_append, relAfter_neutral last mid h] at ho
  simp only [Bool.and_eq_true] at ho
  exact ho.2

/-- C4, amended: over every series of calls of `receive`, with any inbound
datagrams, every reliable sequence number accepted (a data message returned to
the application or a control message dispatched) is one more, modulo `2^32`, than
the reliable number accepted before it; the first one follows the initial
`lastRecNrRel`, and the first one after a timeout `reset` is 1.  `lastRecNrRel`
is the last number accepted, or 0 after a `reset`.  So two reliable data messages
returned with neither a `reset` nor another accepted reliable datagram between
them carry numbers `a` and `a + 1`. -/
theorem receiveAll_reliable_in_order (P : Platform) (calls : List (ℚ × List Datagram))
    (c : Connection) (q : List Datagram) (c1 : Connection) (q1 : List Datagram)
    (evs : List Event) (h : Connection.receiveAll P c q calls = some (c1, q1, evs)) :
    relInOrder c.lastRecNrRel evs = true
      ∧ c1.lastRecNrRel = relAfter c.lastRecNrRel evs
      ∧ ∀ (pre mid post : List Event) (a b : Nat) (n1 n2 : Int) (o1 o2 : List Byte),
          evs = pre ++ Event.data true a n1 o1 :: (mid ++ Event.data true b n2 o2 :: post) →
          (∀ e ∈ mid, e.relNeutral = true) → b = (a + 1) % 4294967296 := by
  have hr := receiveAll_rel P calls c q c1 q1 evs h
  refine ⟨hr.1, hr.2, ?_⟩
  intro pre mid post a b n1 n2 o1 o2 hevs hmid
  have h1 := hr.1
  rw [hevs, relInOrder_append] at h1
  simp only [Bool.and_eq_true] at h1
  have h2 := h1.2
  simp only [relInOrder, Event.relNext, Bool.and_eq_true] at h2
  have h3 := relInOrder_neutral a mid _ hmid h2.2
  simp only [relInOrder, Event.relOk, Bool.and_eq_true, beq_iff_eq] at h3
  exact h3.1

/-- An instance of C4: three calls that accept the reliable numbers 1, 2 and 3
and then time out. -/
theorem receiveAll_reliable_in_order_witness :
    ∃ c1 q1 evs,
      Connection.receiveAll tickPlatform (Connection.new 10 1000 32 2) []
          [(0, [relData1]), (1, [relPong2, relData3]), (100, [])] = some (c1, q1, evs)
        ∧ relInOrder (Connection.new 10 1000 32 2).lastRecNrRel evs = true
        ∧ c1.lastRecNrRel = relAfter (Connection.new 10 1000 32 2).lastRecNrRel evs := by
  have hs : (Connection.receiveAll tickPlatform (Connection.new 10 1000 32 2) []
      [(0, [relData1]), (1, [relPong2, relData3]), (100, [])]).isSome = true := by
    with_unfolding_all decide
  obtain ⟨⟨c1, q1, evs⟩, h⟩ := Option.isSome_iff_exists.mp hs
  have hr := receiveAll_reliable_in_order _ _ _ _ _ _ _ h
  exact ⟨c1, q1, evs, h, hr.1, hr.2.1⟩

/-! ## Framing -/

theorem getD_append_ite (a b : List Byte) (i : Nat) :
    (a ++ b).getD i 0 = if i < a.length then a.getD i 0 else b.getD (i - a.length) 0 := by
  split_ifs with h
  · exact List.getD_append a b 0 i h
  · exact List.getD_append_right a b 0 i (by omega)

theorem length_u32le (v : Nat) : (u32le v).length = 4 := rfl

theorem readU32_eq (mem : List Byte) (off v : Nat)
    (h : ∀ i, i < 4 → mem.getD (off + i) 0 = (u32le v).getD i 0) :
    readU32 mem off = v % 4294967296 := by
  have h0 := h 0 (by omega)
  have h1 := h 1 (by omega)
  have h2 := h 2 (by omega)
  have h3 := h 3 (by omega)
  simp only [Nat.add_zero] at h0
  unfold readU32
  rw [h0, h1, h2, h3]
  simp only [u32le, List.getD_cons_zero, List.getD_cons_succ, byteOf]
  omega

theorem readU32_congr (m1 m2 : List Byte) (o1 o2 : Nat)
    (h : ∀ i, i < 4 → m1.getD (o1 + i) 0 = m2.getD (o2 + i) 0) :
    readU32 m1 o1 = readU32 m2 o2 := by
  have h0 := h 0 (by omega)
  have h1 := h 1 (by omega)
  have h2 := h 2 (by omega)
  have h3 := h 3 (by omega)
  simp only [Nat.add_zero] at h0
  unfold readU32
  rw [h0, h1, h2, h3]

/-- The datagram that `send` builds in `sndBuff`: tag, sequence number, payload. -/
theorem frame_eq (buf : List Byte) (tag nr : Nat) (p : List Byte) :
    readBytes (writeBytes (writeBytes (writeBytes buf HEADER_SIZE p) 0 (u32le tag)) 4 (u32le nr))
        0 (HEADER_SIZE + p.length)
      = u32le tag ++ (u32le nr ++ p) := by
  apply ext_getD
  · simp [length_readBytes, length_u32le, HEADER_SIZE]
    omega
  · intro i hi
    rw [length_readBytes] at hi
    rw [getD_readBytes, if_pos hi, getD_writeBytes, getD_writeBytes, getD_writeBytes,
      getD_append_ite, getD_append_ite]
    simp only [length_u32le, HEADER_SIZE, Nat.zero_add] at hi ⊢
    by_cases h4 : i < 4
    · have a1 : ¬ (4 ≤ i ∧ i < 4 + 4) := by omega
      have a2 : (0 ≤ i ∧ i < 0 + 4) := by omega
      simp [a1, a2, h4]
    · by_cases h8 : i < 8
      · have a1 : (4 ≤ i ∧ i < 4 + 4) := by omega
        have a3 : i - 4 < 4 := by omega
        simp [a1, h4, a3]
      · have a1 : ¬ (4 ≤ i ∧ i < 4 + 4) := by omega
        have a2 : ¬ (0 ≤ i ∧ i < 0 + 4) := by omega
        have a3 : ¬ (i - 4 < 4) := by omega
        have a4 : (8 ≤ i ∧ i < 8 + p.length) := by omega
        have a5 : i - 4 - 4 = i - 8 := by omega
        simp [a1, a2, a3, a4, h4, a5]

/-- The effect of `send` when its assertion holds. -/
theorem send_eq (P : Platform) (now : ℚ) (c : Connection) (p : List Byte)
    (reliable control : Bool) (h : p.length + HEADER_SIZE ≤ c.buffSize)
    (hcc : reliable = true → 0 < c.cacheCount) :
    ∃ c1, Connection.send P now c p reliable control = some c1
      ∧ c1.outbox = c.outbox ++ [u32le (Connection.frameTag reliable control)
          ++ (u32le (if reliable then (c.lastSndNrRel + 1) % 4294967296 else c.lastSndNrURel) ++ p)]
      ∧ c1.lastSndNrRel = (if reliable then (c.lastSndNrRel + 1) % 4294967296 else c.lastSndNrRel)
      ∧ c1.lastSndNrURel
          = (if reliable then c.lastSndNrURel else (c.lastSndNrURel + 1) % 4294967296)
      ∧ (reliable = false → c1.sndCache = c.sndCache) := by
  unfold Connection.send Connection.cacheOffset
  rw [if_pos h]
  cases reliable
  · simp only [Bool.false_eq_true, if_false]
    exact ⟨_, rfl, by simp only [frame_eq], rfl, rfl, fun _ => rfl⟩
  · simp only [if_true, if_neg (Nat.pos_iff_ne_zero.mp (hcc rfl))]
    exact ⟨_, rfl, by simp only [frame_eq], rfl, rfl, fun hf => absurd hf (by simp)⟩

theorem frameTag_bits (reliable control : Bool) :
    Connection.frameTag reliable control % 4294967296 &&& 0xFFFFFFF0 = PROTOCOL_ID &&& 0xFFFFFFF0
      ∧ decide (Connection.frameTag reliable control % 4294967296 &&& 1 ≠ 0) = reliable
      ∧ decide (Connection.frameTag reliable control % 4294967296 &&& 2 ≠ 0) = control
      ∧ Connection.frameTag reliable control % 4294967296 &&& 12 = 0 := by
  cases reliable <;> cases control <;> decide

/-- What a peer finds in its receive buffer after `Socket::receive` of a frame
that fits: the header words and the payload. -/
theorem socketReceive_frame (recBuff : List Byte) (maxSize tag nr : Nat) (p : List Byte)
    (h : HEADER_SIZE + p.length ≤ maxSize) :
    (Connection.socketReceive recBuff maxSize (u32le tag ++ (u32le nr ++ p))).1
        = HEADER_SIZE + p.length
      ∧ readU32 (Connection.socketReceive recBuff maxSize (u32le tag ++ (u32le nr ++ p))).2 0
          = tag % 4294967296
      ∧ readU32 (Connection.socketReceive recBuff maxSize (u32le tag ++ (u32le nr ++ p))).2 4
          = nr % 4294967296
      ∧ readBytes (Connection.socketReceive recBuff maxSize (u32le tag ++ (u32le nr ++ p))).2
          HEADER_SIZE p.length = p := by
  have hl : (u32le tag ++ (u32le nr ++ p)).length = HEADER_SIZE + p.length := by
    simp [length_u32le, HEADER_SIZE]
    omega
  have hm : min (u32le tag ++ (u32le nr ++ p)).length maxSize = HEADER_SIZE + p.length := by
    rw [hl]
    omega
  have ht : List.take (HEADER_SIZE + p.length) (u32le tag ++ (u32le nr ++ p))
      = u32le tag ++ (u32le nr ++ p) := by
    rw [← hl]
    exact List.take_length _
  unfold Connection.socketReceive
  simp only [hm, ht]
  refine ⟨trivial, ?_, ?_, ?_⟩
  · apply readU32_eq
    intro i hi
    rw [getD_writeBytes, getD_append_ite]
    have a1 : (0 ≤ 0 + i ∧ 0 + i < 0 + (u32le tag ++ (u32le nr ++ p)).length) := by
      rw [hl]; simp only [HEADER_SIZE]; omega
    have a2 : 0 + i - 0 < (u32le tag).length := by rw [length_u32le]; omega
    rw [if_pos a1, if_pos a2]
    simp
  · apply readU32_eq
    intro i hi
    rw [getD_writeBytes, getD_append_ite, getD_append_ite]
    have a1 : (0 ≤ 4 + i ∧ 4 + i < 0 + (u32le tag ++ (u32le nr ++ p)).length) := by
      rw [hl]; simp only [HEADER_SIZE]; omega
    have a2 : ¬ (4 + i - 0 < (u32le tag).length) := by rw [length_u32le]; omega
    have a3 : 4 + i - 0 - (u32le tag).length < (u32le nr).length := by
      rw [length_u32le, length_u32le]; omega
    have a4 : 4 + i - 0 - (u32le tag).length = i := by rw [length_u32le]; omega
    rw [if_pos a1, if_neg a2, if_pos a3, a4]
  · apply ext_getD
    · simp [length_readBytes]
    · intro i hi
      rw [length_readBytes] at hi
      rw [getD_readBytes, if_pos hi, getD_writeBytes, getD_append_ite, getD_append_ite]
      have a1 : (0 ≤ HEADER_SIZE + i ∧ HEADER_SIZE + i < 0 + (u32le tag ++ (u32le nr ++ p)).length) := by
        rw [hl]; simp only [HEADER_SIZE]; omega
      have a2 : ¬ (HEADER_SIZE + i - 0 < (u32le tag).length) := by
        rw [length_u32le]; simp only [HEADER_SIZE]; omega
      have a3 : ¬ (HEADER_SIZE + i - 0 - (u32le tag).length < (u32le nr).length) := by
        rw [length_u32le, length_u32le]; simp only [HEADER_SIZE]; omega
      have a4 : HEADER_SIZE + i - 0 - (u32le tag).length - (u32le nr).length = i := by
        rw [length_u32le, length_u32le]; simp only [HEADER_SIZE]; omega
      rw [if_pos a1, if_neg a2, if_neg a3, a4]

/-- C5: for every payload `p` with `|p| + 8 ≤ buffSize` and every choice of the
two flags, on an endpoint whose cache has a slot if the frame is reliable (a
reliable `send` takes the sequence number modulo `cacheCount` before it reaches
the socket, which is a division by zero for `cacheCount = 0`), `send` emits one
frame of `8 + |p|` bytes; a peer whose buffer holds it reads back the protocol id
(the filter passes), the same reliable and control flags, zero in bits 2 and 3,
and `processMessage` returns `|p|` and copies exactly the bytes of `p`. -/
theorem send_frame_round_trip (P : Platform) (now : ℚ) (c : Connection) (p : List Byte)
    (reliable control : Bool) (h : p.length + HEADER_SIZE ≤ c.buffSize)
    (hcc : reliable = true → 0 < c.cacheCount) :
    ∃ c1 frame, Connection.send P now c p reliable control = some c1
      ∧ c1.outbox = c.outbox ++ [frame]
      ∧ frame.length = HEADER_SIZE + p.length
      ∧ ∀ peer : Connection, frame.length ≤ peer.buffSize →
          (Connection.socketReceive peer.recBuff peer.buffSize frame).1 = HEADER_SIZE + p.length
          ∧ readU32 (Connection.socketReceive peer.recBuff peer.buffSize frame).2 0 &&& 0xFFFFFFF0
              = PROTOCOL_ID &&& 0xFFFFFFF0
          ∧ decide (readU32 (Connection.socketReceive peer.recBuff peer.buffSize frame).2 0
              &&& 1 ≠ 0) = reliable
          ∧ decide (readU32 (Connection.socketReceive peer.recBuff peer.buffSize frame).2 0
              &&& 2 ≠ 0) = control
          ∧ readU32 (Connection.socketReceive peer.recBuff peer.buffSize frame).2 0 &&& 12 = 0
          ∧ Connection.processMessage
              { peer with
                recBuff := (Connection.socketReceive peer.recBuff peer.buffSize frame).2 }
              (Connection.socketReceive peer.recBuff peer.buffSize frame).1
            = ((p.length : Int), p) := by
  obtain ⟨c1, hs, ho, _⟩ := send_eq P now c p reliable control h hcc
  refine ⟨c1, _, hs, ho, ?_, ?_⟩
  · simp [length_u32le, HEADER_SIZE]
    omega
  · intro peer hp
    have hl : (u32le (Connection.frameTag reliable control)
        ++ (u32le (if reliable then (c.lastSndNrRel + 1) % 4294967296 else c.lastSndNrURel)
          ++ p)).length = HEADER_SIZE + p.length := by
      simp [length_u32le, HEADER_SIZE]
      omega
    rw [hl] at hp
    obtain ⟨r1, r2, _, r4⟩ := socketReceive_frame peer.recBuff peer.buffSize
      (Connection.frameTag reliable control)
      (if reliable then (c.lastSndNrRel + 1) % 4294967296 else c.lastSndNrURel) p hp
    obtain ⟨b1, b2, b3, b4⟩ := frameTag_bits reliable control
    refine ⟨r1, ?_, ?_, ?_, ?_, ?_⟩
    · rw [r2]; exact b1
    · rw [r2]; exact b2
    · rw [r2]; exact b3
    · rw [r2]; exact b4
    · unfold Connection.processMessage
      simp only [r1]
      have e1 : ((HEADER_SIZE + p.length : Nat) : Int) - (HEADER_SIZE : Int) = (p.length : Int) := by
        push_cast
        omega
      rw [e1, Int.toNat_ofNat, r4]

/-- An instance of C5: the payload `[1, 2, 3]` sent reliably from a new endpoint
with 32-byte buffers and two cache slots, and read by a new peer. -/
theorem send_frame_round_trip_witness :
    [1, 2, 3].length + HEADER_SIZE ≤ (Connection.new 10 1000 32 2).buffSize
      ∧ 0 < (Connection.new 10 1000 32 2).cacheCount
      ∧ ∃ c1 frame,
          Connection.send tickPlatform 0 (Connection.new 10 1000 32 2) [1, 2, 3] true false
              = some c1
            ∧ c1.outbox = (Connection.new 10 1000 32 2).outbox ++ [frame]
            ∧ Connection.processMessage
                { Connection.new 10 1000 32 2 with
                  recBuff := (Connection.socketReceive (Connection.new 10 1000 32 2).recBuff
                    (Connection.new 10 1000 32 2).buffSize frame).2 }
                (Connection.socketReceive (Connection.new 10 1000 32 2).recBuff
                    (Connection.new 10 1000 32 2).buffSize frame).1
              = (3, [1, 2, 3]) := by
  refine ⟨by decide, by decide, ?_⟩
  obtain ⟨c1, frame, h1, h2, h3, h4⟩ :=
    send_frame_round_trip tickPlatform 0 (Connection.new 10 1000 32 2) [1, 2, 3] true false
      (by decide) (fun _ => by decide)
  refine ⟨c1, frame, h1, h2, ?_⟩
  have hb : frame.length ≤ (Connection.new 10 1000 32 2).buffSize := by
    rw [h3]
    decide
  exact (h4 (Connection.new 10 1000 32 2) hb).2.2.2.2.2

/-! ## The assertion of `receive` on the datagram size -/

/-- C6, evaluated on the source: with `buffSize = 16` a payload of 8 bytes
satisfies the assertion of `send` (`8 + 8 ≤ 16`) and `send` emits a frame of 16
bytes; a peer with `buffSize = 16` reads 16 bytes and its assertion
`size < buffSize` fails.  A payload of 7 bytes passes both. -/
theorem receive_assert_fails_on_full_frame :
    (Connection.send tickPlatform 0 (Connection.new 10 1000 16 2) [1, 2, 3, 4, 5, 6, 7, 8]
        false false).map (fun c => c.outbox)
      = some [[0x40, 0x55, 0x44, 0x50, 0, 0, 0, 0, 1, 2, 3, 4, 5, 6, 7, 8]]
    ∧ (Connection.receive tickPlatform 0 (Connection.new 10 1000 16 2)
        [[0x40, 0x55, 0x44, 0x50, 0, 0, 0, 0, 1, 2, 3, 4, 5, 6, 7, 8]]).isSome = false
    ∧ (Connection.receive tickPlatform 0 (Connection.new 10 1000 16 2)
        [[0x40, 0x55, 0x44, 0x50, 0, 0, 0, 0, 1, 2, 3, 4, 5, 6, 7]]).map (fun r => (r.ret, r.out))
      = some (7, [1, 2, 3, 4, 5, 6, 7]) := by
  with_unfolding_all decide

/-! ## Stray datagrams -/

/-- The loop body on a buffer whose first word fails the protocol id test. -/
theorem processDatagram_stray (P : Platform) (now : ℚ) (c : Connection) (size : Nat)
    (hid : readU32 c.recBuff 0 &&& 0xFFFFFFF0 ≠ PROTOCOL_ID &&& 0xFFFFFFF0) :
    Connection.processDatagram P now c size = some (c, Event.stray) := by
  unfold Connection.processDatagram
  simp only [hid, if_false]

theorem getD_take (l : List Byte) (m i : Nat) (h : i < m) : (l.take m).getD i 0 = l.getD i 0 := by
  simp only [List.getD_eq_getElem?_getD]
  rw [List.getElem?_take_of_lt h]

/-- The first word of the receive buffer is the first word of the datagram when
four bytes or more were read. -/
theorem socketReceive_header (recBuff : List Byte) (maxSize : Nat) (d : Datagram)
    (h4 : 4 ≤ d.length) (hb : 4 ≤ maxSize) :
    readU32 (Connection.socketReceive recBuff maxSize d).2 0 = readU32 d 0 := by
  apply readU32_congr
  intro i hi
  unfold Connection.socketReceive
  simp only
  rw [getD_writeBytes]
  have a1 : 0 ≤ 0 + i ∧ 0 + i < 0 + (List.take (min d.length maxSize) d).length := by
    rw [List.length_take]
    omega
  rw [if_pos a1, getD_take]
  · simp
  · omega

/-- C8: a datagram whose first four bytes, masked with `0xFFFFFFF0`, differ from
`PROTOCOL_ID & 0xFFFFFFF0` is dropped by the loop body of `receive`: after
`Socket::receive` has copied it to `recBuff` the body changes no member of the
endpoint (state, `lastRec`, `ping`, `lastPng`, the five counters, the send buffer
and cache, the datagrams sent), returns no message and dispatches nothing; in the
loop, `receive` goes on with the next datagram. -/
theorem stray_datagram_ignored (P : Platform) (now : ℚ) (c : Connection) (d : Datagram)
    (rest : List Datagram) (h4 : 4 ≤ d.length) (hb : d.length < c.buffSize)
    (hid : readU32 d 0 &&& 0xFFFFFFF0 ≠ PROTOCOL_ID &&& 0xFFFFFFF0) :
    Connection.processDatagram P now
        { c with recBuff := (Connection.socketReceive c.recBuff c.buffSize d).2 }
        (Connection.socketReceive c.recBuff c.buffSize d).1
      = some ({ c with recBuff := (Connection.socketReceive c.recBuff c.buffSize d).2 },
              Event.stray)
    ∧ Connection.drain P now c (d :: rest)
      = (Connection.drain P now
            { c with recBuff := (Connection.socketReceive c.recBuff c.buffSize d).2 } rest).map
          (fun t => { t with events := Event.stray :: t.events }) := by
  have hh : readU32 (Connection.socketReceive c.recBuff c.buffSize d).2 0 &&& 0xFFFFFFF0
      ≠ PROTOCOL_ID &&& 0xFFFFFFF0 := by
    rw [socketReceive_header c.recBuff c.buffSize d h4 (by omega)]
    exact hid
  have hp := processDatagram_stray P now
    { c with recBuff := (Connection.socketReceive c.recBuff c.buffSize d).2 }
    (Connection.socketReceive c.recBuff c.buffSize d).1 hh
  refine ⟨hp, ?_⟩
  have h1 : (Connection.socketReceive c.recBuff c.buffSize d).1 = d.length := by
    unfold Connection.socketReceive
    simp only
    omega
  have h2 : 0 < (Connection.socketReceive c.recBuff c.buffSize d).1 := by omega
  have h3 : (Connection.socketReceive c.recBuff c.buffSize d).1 < c.buffSize := by omega
  rw [Connection.drain]
  simp only [h2, h3, if_true, hp, Event.returned]

/-- An instance of C8: a datagram with the first word `0xDEADBEE0` at a new
endpoint. -/
theorem stray_datagram_ignored_witness :
    4 ≤ [0xE0, 0xBE, 0xAD, 0xDE, 1, 2].length
      ∧ [0xE0, 0xBE, 0xAD, 0xDE, 1, 2].length < (Connection.new 10 1000 32 2).buffSize
      ∧ readU32 [0xE0, 0xBE, 0xAD, 0xDE, 1, 2] 0 &&& 0xFFFFFFF0 ≠ PROTOCOL_ID &&& 0xFFFFFFF0
      ∧ Connection.processDatagram tickPlatform 5
          { Connection.new 10 1000 32 2 with
            recBuff := (Connection.socketReceive (Connection.new 10 1000 32 2).recBuff
              (Connection.new 10 1000 32 2).buffSize [0xE0, 0xBE, 0xAD, 0xDE, 1, 2]).2 }
          (Connection.socketReceive (Connection.new 10 1000 32 2).recBuff
              (Connection.new 10 1000 32 2).buffSize [0xE0, 0xBE, 0xAD, 0xDE, 1, 2]).1
        = some ({ Connection.new 10 1000 32 2 with
            recBuff := (Connection.socketReceive (Connection.new 10 1000 32 2).recBuff
              (Connection.new 10 1000 32 2).buffSize [0xE0, 0xBE, 0xAD, 0xDE, 1, 2]).2 },
            Event.stray) :=
  ⟨by decide, by decide, by decide,
    (stray_datagram_ignored tickPlatform 5 (Connection.new 10 1000 32 2)
      [0xE0, 0xBE, 0xAD, 0xDE, 1, 2] [] (by decide) (by decide) (by decide)).1⟩

/-! ## Sequence numbers written by `send` -/

theorem readU32_frame_nr (tag nr : Nat) (p : List Byte) :
    readU32 (u32le tag ++ (u32le nr ++ p)) 4 = nr % 4294967296 := by
  apply readU32_eq
  intro i hi
  rw [getD_append_ite, getD_append_ite]
  have a2 : ¬ (4 + i < (u32le tag).length) := by rw [length_u32le]; omega
  have a3 : 4 + i - (u32le tag).length < (u32le nr).length := by
    rw [length_u32le, length_u32le]; omega
  have a4 : 4 + i - (u32le tag).length = i := by rw [length_u32le]; omega
  rw [if_neg a2, if_pos a3, a4]

/-- C9: for a payload within the size limit, a reliable `send` on an endpoint
whose cache has a slot increments `lastSndNrRel` modulo `2^32` and writes the
incremented value as the sequence number of the frame, leaving `lastSndNrURel`
unchanged; an unreliable `send`, data or control, on any endpoint writes the
current `lastSndNrURel` and then increments it modulo `2^32`, leaving
`lastSndNrRel` and the cache unchanged; neither changes `lastAckNrRel`,
`lastRecNrRel`, `lastRecNrURel`, `state`, `ping`, `lastRec` or `lastPng`.  After
`reset` the first reliable frame carries 1 and the first unreliable frame carries
0.  On an endpoint with `cacheCount = 0` a reliable `send` does not return (the
slot index is a remainder modulo `cacheCount`) and hands no frame to the socket. -/
theorem send_sequence_numbers (P : Platform) (now : ℚ) (c : Connection) (p : List Byte)
    (control : Bool) (h : p.length + HEADER_SIZE ≤ c.buffSize) :
    (0 < c.cacheCount →
      ∃ c1 frame, Connection.send P now c p true control = some c1
        ∧ c1.outbox = c.outbox ++ [frame]
        ∧ readU32 frame 4 = (c.lastSndNrRel + 1) % 4294967296
        ∧ c1.lastSndNrRel = (c.lastSndNrRel + 1) % 4294967296
        ∧ c1.lastSndNrURel = c.lastSndNrURel
        ∧ c1.lastAckNrRel = c.lastAckNrRel ∧ c1.lastRecNrRel = c.lastRecNrRel
        ∧ c1.lastRecNrURel = c.lastRecNrURel ∧ c1.state = c.state ∧ c1.ping = c.ping
        ∧ c1.lastRec = c.lastRec ∧ c1.lastPng = c.lastPng)
    ∧ (∃ c1 frame, Connection.send P now c p false control = some c1
        ∧ c1.outbox = c.outbox ++ [frame]
        ∧ readU32 frame 4 = c.lastSndNrURel % 4294967296
        ∧ c1.lastSndNrURel = (c.lastSndNrURel + 1) % 4294967296
        ∧ c1.lastSndNrRel = c.lastSndNrRel ∧ c1.sndCache = c.sndCache
        ∧ c1.lastAckNrRel = c.lastAckNrRel ∧ c1.lastRecNrRel = c.lastRecNrRel
        ∧ c1.lastRecNrURel = c.lastRecNrURel ∧ c1.state = c.state ∧ c1.ping = c.ping
        ∧ c1.lastRec = c.lastRec ∧ c1.lastPng = c.lastPng)
    ∧ (0 < c.cacheCount →
      ∃ c1 frame, Connection.send P now (Connection.reset c) p true control = some c1
        ∧ c1.outbox = c.outbox ++ [frame] ∧ readU32 frame 4 = 1)
    ∧ (∃ c1 frame, Connection.send P now (Connection.reset c) p false control = some c1
        ∧ c1.outbox = c.outbox ++ [frame] ∧ readU32 frame 4 = 0)
    ∧ (c.cacheCount = 0 → Connection.send P now c p true control = none) := by
  refine ⟨?_, ?_, ?_, ?_, ?_⟩
  · intro hcc
    obtain ⟨c1, hs, ho, h1, h2, _⟩ := send_eq P now c p true control h (fun _ => hcc)
    obtain ⟨_, _, _, _, _, f1, f2, f3, f4, f5, f6, f7⟩ :=
      send_frame_fields P now c c1 p true control hs
    simp only [if_true] at ho h1 h2
    refine ⟨c1, _, hs, ho, ?_, h1, h2, f1, f2, f3, f4, f5, f6, f7⟩
    rw [readU32_frame_nr]
    omega
  · obtain ⟨c1, hs, ho, h1, h2, h3⟩ :=
      send_eq P now c p false control h (fun hf => absurd hf (by decide))
    obtain ⟨_, _, _, _, _, f1, f2, f3, f4, f5, f6, f7⟩ :=
      send_frame_fields P now c c1 p false control hs
    simp only [Bool.false_eq_true, if_false] at ho h1 h2
    exact ⟨c1, _, hs, ho, readU32_frame_nr _ _ _, h2, h1, h3 rfl, f1, f2, f3, f4, f5, f6, f7⟩
  · intro hcc
    obtain ⟨c1, hs, ho, _⟩ :=
      send_eq P now (Connection.reset c) p true control h (fun _ => hcc)
    simp only [if_true] at ho
    refine ⟨c1, _, hs, ho, ?_⟩
    rw [readU32_frame_nr]
    rfl
  · obtain ⟨c1, hs, ho, _⟩ :=
      send_eq P now (Connection.reset c) p false control h (fun hf => absurd hf (by decide))
    simp only [Bool.false_eq_true, if_false] at ho
    refine ⟨c1, _, hs, ho, ?_⟩
    rw [readU32_frame_nr]
    rfl
  · intro h0
    unfold Connection.send Connection.cacheOffset
    simp only [if_pos h, if_true, if_pos h0]

/-- An instance of C9: the first reliable send of a new endpoint with two cache
slots carries the sequence number 1. -/
theorem send_sequence_numbers_witness :
    [1, 2, 3].length + HEADER_SIZE ≤ (Connection.new 10 1000 32 2).buffSize
      ∧ 0 < (Connection.new 10 1000 32 2).cacheCount
      ∧ ∃ c1 frame,
          Connection.send tickPlatform 0 (Connection.new 10 1000 32 2) [1, 2, 3] true false
              = some c1
            ∧ c1.outbox = (Connection.new 10 1000 32 2).outbox ++ [frame]
            ∧ readU32 frame 4 = ((Connection.new 10 1000 32 2).lastSndNrRel + 1) % 4294967296
            ∧ c1.lastSndNrRel = 1 := by
  refine ⟨by decide, by decide, ?_⟩
  obtain ⟨c1, frame, h1, h2, h3, h4, _⟩ :=
    (send_sequence_numbers tickPlatform 0 (Connection.new 10 1000 32 2) [1, 2, 3] false
      (by decide)).1 (by decide)
  exact ⟨c1, frame, h1, h2, h3, h4⟩

/-! ## Acknowledged and sent numbers -/

/-- C10 as stated fails on the source.  A Ping with cumulative ack 100 reaches a
new endpoint, which has sent nothing: `checkSeqNr (100, 0)` holds, `lastAckNrRel`
becomes 100 while `lastSndNrRel` is 0, and `(0 - 100) mod 2^32` is not below
`2^30`.  And a reliable `send` with `2^30 - 1` frames outstanding makes the
distance `2^30`. -/
theorem ack_order_not_preserved :
    ackBehindSnd (Connection.new 10 1000 32 2) = true
      ∧ (Connection.receive tickPlatform 0 (Connection.new 10 1000 32 2) [pingAck100]).map
          (fun r => (r.conn.lastSndNrRel, r.conn.lastAckNrRel, ackBehindSnd r.conn))
        = some (0, 100, false)
      ∧ ackBehindSnd { Connection.new 10 1000 32 2 with lastSndNrRel := 1073741823 } = true
      ∧ (Connection.send tickPlatform 0
            { Connection.new 10 1000 32 2 with lastSndNrRel := 1073741823 } [7] true false).map
          (fun c => (c.lastSndNrRel, c.lastAckNrRel, ackBehindSnd c))
        = some (1073741824, 0, false) :=
  ⟨by decide, by with_unfolding_all decide, by decide, by decide⟩

theorem send_unreliable_counters (P : Platform) (now : ℚ) (c c1 : Connection) (p : List Byte)
    (control : Bool) (h : Connection.send P now c p false control = some c1) :
    c1.lastSndNrRel = c.lastSndNrRel ∧ c1.lastAckNrRel = c.lastAckNrRel := by
  unfold Connection.send at h
  split at h
  · simp only [Bool.false_eq_true, if_false, Option.some.injEq] at h
    subst h
    simp
  · exact absurd h (by simp)

/-- What `processControlMessage` does to the two counters: `lastSndNrRel` is kept,
and `lastAckNrRel` is kept or, for a Ping whose ack passes `checkSeqNr`, set to
that ack. -/
theorem processControlMessage_ack (P : Platform) (now : ℚ) (c c1 : Connection)
    (h : Connection.processControlMessage P now c = some c1) :
    c1.lastSndNrRel = c.lastSndNrRel
      ∧ (c1.lastAckNrRel = c.lastAckNrRel
          ∨ ((c.recBuff.getD HEADER_SIZE 0).val = Ping
              ∧ Connection.checkSeqNr (readU32 c.recBuff (HEADER_SIZE + 9)) c.lastAckNrRel = true
              ∧ c1.lastAckNrRel = readU32 c.recBuff (HEADER_SIZE + 9))) := by
  unfold Connection.processControlMessage at h
  simp only at h
  split at h
  · rename_i hping
    have hs := send_unreliable_counters P now _ c1 _ true h
    split at hs
    · rename_i hchk
      exact ⟨hs.1, Or.inr ⟨hping, hchk, hs.2⟩⟩
    · exact ⟨hs.1, Or.inl hs.2⟩
  · split at h
    · split at h <;> (simp only [Option.some.injEq] at h; subst h; simp)
    · simp only [Option.some.injEq] at h
      subst h
      simp

/-- The same for the loop body of `receive`. -/
theorem processDatagram_ack (P : Platform) (now : ℚ) (c c1 : Connection) (size : Nat)
    (e : Event) (h : Connection.processDatagram P now c size = some (c1, e)) :
    c1.lastSndNrRel = c.lastSndNrRel
      ∧ (c1.lastAckNrRel = c.lastAckNrRel
          ∨ ((∃ rel nr, e = Event.control rel nr)
              ∧ (c.recBuff.getD HEADER_SIZE 0).val = Ping
              ∧ Connection.checkSeqNr (readU32 c.recBuff (HEADER_SIZE + 9)) c.lastAckNrRel = true
              ∧ c1.lastAckNrRel = readU32 c.recBuff (HEADER_SIZE + 9))) := by
  unfold Connection.processDatagram at h
  simp only at h
  split at h
  · split at h
    · split at h
      · split at h
        · rw [Option.map_eq_some'] at h
          obtain ⟨c3, hp, h3⟩ := h
          simp only [Prod.mk.injEq] at h3
          obtain ⟨rfl, rfl⟩ := h3
          have hc := processControlMessage_ack P now _ c3 hp
          refine ⟨hc.1, ?_⟩
          rcases hc.2 with h1 | ⟨h1, h2, h3⟩
          · exact Or.inl h1
          · exact Or.inr ⟨⟨_, _, rfl⟩, h1, h2, h3⟩
        · simp only [Option.some.injEq, Prod.mk.injEq] at h
          obtain ⟨rfl, rfl⟩ := h
          simp
      · simp only [Option.some.injEq, Prod.mk.injEq] at h
        obtain ⟨rfl, rfl⟩ := h
        simp
    · split at h
      · split at h
        · rw [Option.map_eq_some'] at h
          obtain ⟨c3, hp, h3⟩ := h
          simp only [Prod.mk.injEq] at h3
          obtain ⟨rfl, rfl⟩ := h3
          have hc := processControlMessage_ack P now _ c3 hp
          refine ⟨hc.1, ?_⟩
          rcases hc.2 with h1 | ⟨h1, h2, h3⟩
          · exact Or.inl h1
          · exact Or.inr ⟨⟨_, _, rfl⟩, h1, h2, h3⟩
        · simp only [Option.some.injEq, Prod.mk.injEq] at h
          obtain ⟨rfl, rfl⟩ := h
          simp
      · simp only [Option.some.injEq, Prod.mk.injEq] at h
        obtain ⟨rfl, rfl⟩ := h
        simp
  · simp only [Option.some.injEq, Prod.mk.injEq] at h
    obtain ⟨rfl, rfl⟩ := h
    simp

theorem ackBehindSnd_congr (c c1 : Connection) (h1 : c1.lastSndNrRel = c.lastSndNrRel)
    (h2 : c1.lastAckNrRel = c.lastAckNrRel) : ackBehindSnd c1 = ackBehindSnd c := by
  unfold ackBehindSnd
  rw [h1, h2]

theorem keepAlive_ack (P : Platform) (now : ℚ) (c c1 : Connection) (ev : List Event)
    (h : Connection.keepAlive P now c = some (c1, ev)) :
    c1.lastSndNrRel = c.lastSndNrRel ∧ c1.lastAckNrRel = c.lastAckNrRel := by
  unfold Connection.keepAlive at h
  split at h
  · rw [Option.map_eq_some'] at h
    obtain ⟨c2, hs, h2⟩ := h
    simp only [Prod.mk.injEq] at h2
    obtain ⟨rfl, rfl⟩ := h2
    exact send_unreliable_counters P now c c2 _ true hs
  · simp only [Option.some.injEq, Prod.mk.injEq] at h
    obtain ⟨rfl, rfl⟩ := h
    simp

theorem afterDrain_ack (P : Platform) (now : ℚ) (c : Connection) (h : ackBehindSnd c = true)
    (r : Connection × List Event) (hr : Connection.afterDrain P now c = some r) :
    ackBehindSnd r.1 = true := by
  unfold Connection.afterDrain at hr
  split at hr
  · simp only [Option.some.injEq] at hr
    subst hr
    simp [ackBehindSnd, Connection.reset]
  · split at hr
    · split at hr
      · exact absurd hr (by simp)
      · simp only at hr
        split at hr
        · split at hr
          · simp only [Option.some.injEq] at hr
            subst hr
            exact h
          · exact absurd hr (by simp)
        · simp only [Option.some.injEq] at hr
          subst hr
          exact h
    · simp only [Option.some.injEq] at hr
      subst hr
      exact h

/-- C10, amended: the order `(lastSndNrRel - lastAckNrRel) mod 2^32 < 2^30` holds
after `reset`; an unreliable `send`, data or control, keeps it; a reliable `send`
keeps it when the distance before is below `2^30 - 1`; the loop body of `receive`
keeps it on every datagram, except that for an accepted Ping whose ack passes
`checkSeqNr` the order must hold for that ack, which becomes `lastAckNrRel`; the
keep-alive and the timeout and resend step of `receive` keep it. -/
theorem ack_order_preserved (P : Platform) (now : ℚ) (c c1 : Connection) :
    ackBehindSnd (Connection.reset c) = true
    ∧ (∀ p control, ackBehindSnd c = true →
        Connection.send P now c p false control = some c1 → ackBehindSnd c1 = true)
    ∧ (∀ p control, c.lastSndNrRel < 4294967296 → c.lastAckNrRel < 4294967296 →
        (c.lastSndNrRel + 4294967296 - c.lastAckNrRel) % 4294967296 < 1073741823 →
        Connection.send P now c p true control = some c1 → ackBehindSnd c1 = true)
    ∧ (∀ size e, ackBehindSnd c = true →
        Connection.processDatagram P now c size = some (c1, e) →
        ((∃ rel nr, e = Event.control rel nr) → (c.recBuff.getD HEADER_SIZE 0).val = Ping →
          Connection.checkSeqNr (readU32 c.recBuff (HEADER_SIZE + 9)) c.lastAckNrRel = true →
          (c.lastSndNrRel + 4294967296 - readU32 c.recBuff (HEADER_SIZE + 9)) % 4294967296
            < 1073741824) →
        ackBehindSnd c1 = true)
    ∧ (∀ ev, ackBehindSnd c = true →
        Connection.keepAlive P now c = some (c1, ev) → ackBehindSnd c1 = true)
    ∧ (∀ r, ackBehindSnd c = true →
        Connection.afterDrain P now c = some r → ackBehindSnd r.1 = true) := by
  refine ⟨?_, ?_, ?_, ?_, ?_, ?_⟩
  · simp [ackBehindSnd, Connection.reset]
  · intro p control hinv hs
    have := send_unreliable_counters P now c c1 p control hs
    rw [ackBehindSnd_congr c c1 this.1 this.2]
    exact hinv
  · intro p control hs1 ha1 hd hs
    have hsz : p.length + HEADER_SIZE ≤ c.buffSize := by
      by_contra hn
      unfold Connection.send at hs
      rw [if_neg hn] at hs
      exact absurd hs (by simp)
    obtain ⟨c2, hs2, _, h1, _⟩ := send_eq P now c p true control hsz
      (fun _ => send_reliable_cacheCount P now c c1 p control hs)
    rw [hs] at hs2
    simp only [Option.some.injEq] at hs2
    subst hs2
    have h2 := (send_frame_fields P now c c1 p true control hs).2.2.2.2.2.1
    simp only [if_true] at h1
    unfold ackBehindSnd
    rw [h1, h2]
    simp only [decide_eq_true_eq]
    omega
  · intro size e hinv hpd hack
    have hc := processDatagram_ack P now c c1 size e hpd
    rcases hc.2 with h1 | ⟨h1, h2, h3, h4⟩
    · rw [ackBehindSnd_congr c c1 hc.1 h1]
      exact hinv
    · have := hack h1 h2 h3
      unfold ackBehindSnd
      rw [hc.1, h4]
      simp only [decide_eq_true_eq]
      exact this
  · intro ev hinv hk
    have := keepAlive_ack P now c c1 ev hk
    rw [ackBehindSnd_congr c c1 this.1 this.2]
    exact hinv
  · intro r hinv hr
    exact afterDrain_ack P now c hinv r hr

/-- An instance of C10: an endpoint with five frames outstanding accepts a Ping
with cumulative ack 3; `lastAckNrRel` becomes 3 and the order holds. -/
theorem ack_order_preserved_witness :
    ∃ c1 e, Connection.processDatagram tickPlatform 0 endpointWithPingAck3 21 = some (c1, e)
      ∧ ackBehindSnd endpointWithPingAck3 = true
      ∧ c1.lastAckNrRel = 3
      ∧ ackBehindSnd c1 = true := by
  have hs : (Connection.processDatagram tickPlatform 0 endpointWithPingAck3 21).isSome
      = true := by
    decide
  obtain ⟨⟨c1, e⟩, h⟩ := Option.isSome_iff_exists.mp hs
  have h3 : (Connection.processDatagram tickPlatform 0 endpointWithPingAck3 21).map
      (fun r => r.1.lastAckNrRel) = some 3 := by
    decide
  rw [h] at h3
  simp only [Option.map_some', Option.some.injEq] at h3
  exact ⟨c1, e, h, by decide, h3,
    (ack_order_preserved tickPlatform 0 endpointWithPingAck3 c1).2.2.2.1 21 e (by decide) h
      (fun _ _ _ => by decide)⟩

/-! ## The retransmit cache -/

set_option maxRecDepth 100000 in
/-- C7 as stated fails on the source.  First run, the sequence counter wraps:
with `cacheCount = 3` and `lastSndNrRel = 2^32 - 2`, two reliable sends of the
payloads `[1]` and `[2]` carry the numbers `2^32 - 1` and `0`, both congruent to
0 modulo 3; slot `(base + 1) mod 3 = 0` then holds the second frame, not the
first.  Second run, the entries overlap: with `buffSize = 32`, `cacheCount = 2`
and `lastSndNrRel = 0`, two reliable sends of 24 bytes (`24 + 8 ≤ 32`) go to the
slots 1 and 0; the entry of slot 0 spans the bytes 0 to 43 and covers the time and
length fields of slot 1 at 32 to 43, so the length read at slot 1 is not 32. -/
theorem cache_slot_lost :
    (Connection.sendAll tickPlatform
        { Connection.new 10 1000 32 3 with lastSndNrRel := 4294967294 }
        [(0, [1]), (0, [2])]).map
      (fun c => (c.outbox, c.cachedLength ((4294967294 + 1) % 3),
        c.cachedFrame ((4294967294 + 1) % 3) 9))
      = some ([[0x41, 0x55, 0x44, 0x50, 0xFF, 0xFF, 0xFF, 0xFF, 1],
               [0x41, 0x55, 0x44, 0x50, 0, 0, 0, 0, 2]],
              9, [0x41, 0x55, 0x44, 0x50, 0, 0, 0, 0, 2])
    ∧ (Connection.sendAll tickPlatform (Connection.new 10 1000 32 2)
        [(0, List.replicate 24 0xAA), (0, List.replicate 24 0xBB)]).map
      (fun c => (c.outbox.map List.length, c.cachedLength ((0 + 1) % 2)))
      = some ([32, 32], 3149642683) :=
  ⟨by decide, by decide⟩

theorem length_u64le (v : Nat) : (u64le v).length = 8 := rfl

theorem readU32_of_readBytes (mem : List Byte) (off v : Nat)
    (h : readBytes mem off 4 = u32le v) : readU32 mem off = v % 4294967296 := by
  apply readU32_eq
  intro i hi
  have := congrArg (fun l => l.getD i 0) h
  simp only [getD_readBytes, if_pos hi] at this
  exact this

theorem readU64_of_readBytes (mem : List Byte) (off v : Nat)
    (h : readBytes mem off 8 = u64le v) : readU64 mem off = v % 18446744073709551616 := by
  have h1 : readU32 mem off = v % 4294967296 := by
    apply readU32_eq
    intro i hi
    have := congrArg (fun l => l.getD i 0) h
    simp only [getD_readBytes, if_pos (show i < 8 by omega), u64le, getD_append_ite,
      length_u32le, if_pos hi] at this
    exact this
  have h2 : readU32 mem (off + 4) = (v / 4294967296) % 4294967296 := by
    apply readU32_eq
    intro i hi
    have := congrArg (fun l => l.getD (4 + i) 0) h
    simp only [getD_readBytes, if_pos (show 4 + i < 8 by omega), u64le, getD_append_ite,
      length_u32le, if_neg (show ¬ (4 + i < 4) by omega)] at this
    rw [show 4 + i - 4 = i by omega, ← Nat.add_assoc] at this
    exact this
  unfold readU64
  rw [h1, h2]
  omega

/-- The three writes of `send` into the cache: the fields read back, and every
byte outside the entry is kept. -/
theorem cache_entry (mem : List Byte) (off : Nat) (t l f : List Byte) (ht : t.length = 8)
    (hl : l.length = 4) :
    readBytes (writeBytes (writeBytes (writeBytes mem off t) (off + 8) l) (off + 12) f) off 8 = t
    ∧ readBytes (writeBytes (writeBytes (writeBytes mem off t) (off + 8) l) (off + 12) f)
        (off + 8) 4 = l
    ∧ readBytes (writeBytes (writeBytes (writeBytes mem off t) (off + 8) l) (off + 12) f)
        (off + 12) f.length = f
    ∧ ∀ a, ¬ (off ≤ a ∧ a < off + (12 + f.length)) →
        (writeBytes (writeBytes (writeBytes mem off t) (off + 8) l) (off + 12) f).getD a 0
          = mem.getD a 0 := by
  refine ⟨?_, ?_, ?_, ?_⟩
  · rw [readBytes_writeBytes_disjoint _ _ _ _ _ (by omega),
      readBytes_writeBytes_disjoint _ _ _ _ _ (by omega), ← ht]
    exact readBytes_writeBytes_same mem off t
  · rw [readBytes_writeBytes_disjoint _ _ _ _ _ (by omega), ← hl]
    exact readBytes_writeBytes_same _ (off + 8) l
  · exact readBytes_writeBytes_same _ (off + 12) f
  · intro a ha
    rw [getD_writeBytes, getD_writeBytes, getD_writeBytes]
    have a1 : ¬ (off + 12 ≤ a ∧ a < off + 12 + f.length) := by omega
    have a2 : ¬ (off + 8 ≤ a ∧ a < off + 8 + l.length) := by omega
    have a3 : ¬ (off ≤ a ∧ a < off + t.length) := by omega
    rw [if_neg a1, if_neg a2, if_neg a3]

/-- One reliable `send`: the entry it writes at `cacheOffset`, and the rest of
the cache. -/
theorem send_cache (P : Platform) (now : ℚ) (c : Connection) (p : List Byte) (control : Bool)
    (h : p.length + HEADER_SIZE ≤ c.buffSize) (off : Nat)
    (hoff : Connection.cacheOffset c ((c.lastSndNrRel + 1) % 4294967296) = some off) :
    ∃ c1, Connection.send P now c p true control = some c1
      ∧ c1.lastSndNrRel = (c.lastSndNrRel + 1) % 4294967296
      ∧ c1.buffSize = c.buffSize ∧ c1.cacheCount = c.cacheCount
      ∧ c1.outbox = c.outbox ++ [u32le (Connection.frameTag true control)
          ++ (u32le ((c.lastSndNrRel + 1) % 4294967296) ++ p)]
      ∧ readU64 c1.sndCache off = P.bits now % 18446744073709551616
      ∧ readU32 c1.sndCache (off + 8) = (HEADER_SIZE + p.length) % 4294967296
      ∧ readBytes c1.sndCache (off + 12) (HEADER_SIZE + p.length)
          = u32le (Connection.frameTag true control)
              ++ (u32le ((c.lastSndNrRel + 1) % 4294967296) ++ p)
      ∧ ∀ a, ¬ (off ≤ a ∧ a < off + (12 + (HEADER_SIZE + p.length))) →
          c1.sndCache.getD a 0 = c.sndCache.getD a 0 := by
  have hf : (u32le (Connection.frameTag true control)
      ++ (u32le ((c.lastSndNrRel + 1) % 4294967296) ++ p)).length = HEADER_SIZE + p.length := by
    simp [length_u32le, HEADER_SIZE]
    omega
  obtain ⟨e1, e2, e3, e4⟩ := cache_entry c.sndCache off
    (u64le (P.bits now)) (u32le ((HEADER_SIZE + p.length) % 4294967296))
    (u32le (Connection.frameTag true control)
      ++ (u32le ((c.lastSndNrRel + 1) % 4294967296) ++ p))
    (length_u64le _) (length_u32le _)
  rw [hf] at e3 e4
  unfold Connection.send
  rw [if_pos h]
  simp only [if_true, hoff, frame_eq]
  refine ⟨_, rfl, rfl, rfl, rfl, rfl, ?_, ?_, e3, e4⟩
  · exact readU64_of_readBytes _ _ _ e1
  · have := readU32_of_readBytes _ _ _ e2
    rw [this]
    omega

theorem readBytes_congr (m1 m2 : List Byte) (off n : Nat)
    (h : ∀ i, i < n → m1.getD (off + i) 0 = m2.getD (off + i) 0) :
    readBytes m1 off n = readBytes m2 off n := by
  apply ext_getD
  · simp [length_readBytes]
  · intro i hi
    rw [length_readBytes] at hi
    rw [getD_readBytes, getD_readBytes, if_pos hi, if_pos hi]
    exact h i hi

theorem readU64_congr (m1 m2 : List Byte) (off : Nat)
    (h : ∀ i, i < 8 → m1.getD (off + i) 0 = m2.getD (off + i) 0) :
    readU64 m1 off = readU64 m2 off := by
  unfold readU64
  rw [readU32_congr m1 m2 off off (fun i hi => h i (by omega)),
    readU32_congr m1 m2 (off + 4) (off + 4) (fun i hi => by
      have := h (4 + i) (by omega)
      rw [← Nat.add_assoc] at this
      exact this)]

/-- Two slots that share a byte are the same slot. -/
theorem slot_unique (B s t a : Nat) (h1 : s * B ≤ a) (h2 : a < s * B + B) (h3 : t * B ≤ a)
    (h4 : a < t * B + B) : s = t := by
  by_contra hne
  rcases Nat.lt_or_gt_of_ne hne with hlt | hgt
  · have : (s + 1) * B ≤ t * B := Nat.mul_le_mul_right B hlt
    rw [Nat.succ_mul] at this
    omega
  · have : (t + 1) * B ≤ s * B := Nat.mul_le_mul_right B hgt
    rw [Nat.succ_mul] at this
    omega

/-- The `u32` product of `cacheOffset` does not wrap when the cache has at most
`2^32` bytes of slots. -/
theorem cacheOffset_eq (c : Connection) (nr : Nat) (hcc : 1 ≤ c.cacheCount)
    (hb : c.cacheCount * c.buffSize ≤ 4294967296) (hB : 0 < c.buffSize) :
    Connection.cacheOffset c nr = some ((nr % c.cacheCount) * c.buffSize) := by
  unfold Connection.cacheOffset
  rw [if_neg (by omega)]
  congr 1
  apply Nat.mod_eq_of_lt
  have h1 : nr % c.cacheCount < c.cacheCount := Nat.mod_lt _ (by omega)
  have h2 : (nr % c.cacheCount + 1) * c.buffSize ≤ c.cacheCount * c.buffSize :=
    Nat.mul_le_mul_right _ h1
  rw [Nat.succ_mul] at h2
  omega

/-- Within a run of at most `cacheCount` sends that does not wrap the counter, or
with a `cacheCount` that divides `2^32`, the slot of a sequence number is the
slot of the unwrapped number. -/
theorem slot_mod (base cc x : Nat)
    (hw : base + x < 4294967296 ∨ 4294967296 % cc = 0) :
    ((base + x) % 4294967296) % cc = (base + x) % cc := by
  rcases hw with h | h
  · rw [Nat.mod_eq_of_lt h]
  · exact Nat.mod_mod_of_dvd _ (Nat.dvd_of_mod_eq_zero h)

theorem slots_distinct (base cc j k : Nat) (hk : k ≤ cc)
    (hw : base + k < 4294967296 ∨ 4294967296 % cc = 0) (hj1 : 1 ≤ j) (hj : j < k) :
    ((base + (j + 1)) % 4294967296) % cc ≠ ((base + 1) % 4294967296) % cc := by
  have w1 : base + (j + 1) < 4294967296 ∨ 4294967296 % cc = 0 := by
    rcases hw with h | h
    · left; omega
    · right; exact h
  have w2 : base + 1 < 4294967296 ∨ 4294967296 % cc = 0 := by
    rcases hw with h | h
    · left; omega
    · right; exact h
  rw [slot_mod base cc (j + 1) w1, slot_mod base cc 1 w2]
  intro heq
  have h0 := Nat.sub_mod_eq_zero_of_mod_eq heq
  have h1 : base + (j + 1) - (base + 1) = j := by omega
  rw [h1, Nat.mod_eq_of_lt (by omega)] at h0
  omega

theorem succ_mod_add (base j : Nat) :
    ((base + 1) % 4294967296 + (j + 1)) % 4294967296 = (base + (j + 1 + 1)) % 4294967296 := by
  omega

/-- A run of reliable sends keeps every byte of the cache that lies in none of
the slots it writes. -/
theorem sendAll_preserves (P : Platform) (msgs : List (ℚ × List Byte)) :
    ∀ c c1 : Connection, Connection.sendAll P c msgs = some c1 → 1 ≤ c.cacheCount →
      c.cacheCount * c.buffSize ≤ 4294967296 →
      (∀ m ∈ msgs, m.2.length + 20 ≤ c.buffSize) →
      c1.buffSize = c.buffSize ∧ c1.cacheCount = c.cacheCount
      ∧ ∀ a, (∀ j, j < msgs.length →
            ¬ (((c.lastSndNrRel + (j + 1)) % 4294967296) % c.cacheCount * c.buffSize ≤ a
              ∧ a < ((c.lastSndNrRel + (j + 1)) % 4294967296) % c.cacheCount * c.buffSize
                    + c.buffSize)) →
          c1.sndCache.getD a 0 = c.sndCache.getD a 0 := by
  induction msgs with
  | nil =>
    intro c c1 h _ _ _
    simp only [Connection.sendAll, Option.some.injEq] at h
    subst h
    exact ⟨rfl, rfl, fun _ _ => rfl⟩
  | cons m rest ih =>
    intro c c1 h hcc hb hsz
    have hm : m.2.length + 20 ≤ c.buffSize := hsz m (List.mem_cons_self _ _)
    have hoff := cacheOffset_eq c ((c.lastSndNrRel + 1) % 4294967296) hcc hb (by omega)
    obtain ⟨c2, hs, hnr, hB, hC, _, _, _, _, hkeep⟩ :=
      send_cache P m.1 c m.2 false (by simp only [HEADER_SIZE]; omega) _ hoff
    simp only [Connection.sendAll, hs] at h
    have ih1 := ih c2 c1 h (by rw [hC]; exact hcc) (by rw [hC, hB]; exact hb)
      (fun x hx => by rw [hB]; exact hsz x (List.mem_cons_of_mem _ hx))
    refine ⟨by rw [ih1.1, hB], by rw [ih1.2.1, hC], ?_⟩
    intro a ha
    have h0 := ha 0 (by simp)
    rw [ih1.2.2 a ?_, hkeep a ?_]
    · simp only [HEADER_SIZE]
      simp only [Nat.zero_add] at h0
      omega
    · intro j hj
      have := ha (j + 1) (by simp only [List.length_cons]; omega)
      rw [hnr, hB, hC, succ_mod_add]
      exact this

/-- A run of reliable sends: every entry is found at the slot of its sequence
number. -/
theorem sendAll_entries (P : Platform) (msgs : List (ℚ × List Byte)) :
    ∀ c : Connection, 1 ≤ c.cacheCount → msgs.length ≤ c.cacheCount →
      (c.lastSndNrRel + msgs.length < 4294967296 ∨ 4294967296 % c.cacheCount = 0) →
      c.cacheCount * c.buffSize ≤ 4294967296 →
      (∀ m ∈ msgs, m.2.length + 20 ≤ c.buffSize) →
      ∃ c1, Connection.sendAll P c msgs = some c1 ∧ c1.buffSize = c.buffSize
        ∧ ∀ i m, msgs[i]? = some m →
            c1.cachedTime (((c.lastSndNrRel + (i + 1)) % 4294967296) % c.cacheCount)
              = P.bits m.1 % 18446744073709551616
            ∧ c1.cachedLength (((c.lastSndNrRel + (i + 1)) % 4294967296) % c.cacheCount)
              = HEADER_SIZE + m.2.length
            ∧ c1.cachedFrame (((c.lastSndNrRel + (i + 1)) % 4294967296) % c.cacheCount)
                (HEADER_SIZE + m.2.length)
              = u32le (Connection.frameTag true false)
                  ++ (u32le ((c.lastSndNrRel + (i + 1)) % 4294967296) ++ m.2) := by
  induction msgs with
  | nil =>
    intro c _ _ _ _ _
    exact ⟨c, rfl, rfl, fun i m h => by simp at h⟩
  | cons m0 rest ih =>
    intro c hcc hk hw hb hsz
    have hm : m0.2.length + 20 ≤ c.buffSize := hsz m0 (List.mem_cons_self _ _)
    have hBle : c.buffSize ≤ c.cacheCount * c.buffSize := Nat.le_mul_of_pos_left _ (by omega)
    have hoff := cacheOffset_eq c ((c.lastSndNrRel + 1) % 4294967296) hcc hb (by omega)
    obtain ⟨c2, hs, hnr, hB, hC, _, etime, elen, eframe, _⟩ :=
      send_cache P m0.1 c m0.2 false (by simp only [HEADER_SIZE]; omega) _ hoff
    simp only [List.length_cons] at hk hw
    have hsz2 : ∀ m ∈ rest, m.2.length + 20 ≤ c2.buffSize :=
      fun x hx => by rw [hB]; exact hsz x (List.mem_cons_of_mem _ hx)
    obtain ⟨c1, hall, hB1, hent⟩ := ih c2 (by rw [hC]; exact hcc) (by rw [hC]; omega)
      (by rw [hC, hnr]; rcases hw with h | h
          · left; omega
          · right; exact h)
      (by rw [hC, hB]; exact hb) hsz2
    have hpres := (sendAll_preserves P rest c2 c1 hall (by rw [hC]; exact hcc)
      (by rw [hC, hB]; exact hb) hsz2).2.2
    refine ⟨c1, by simp only [Connection.sendAll, hs, hall], by rw [hB1, hB], ?_⟩
    intro i m hi
    cases i with
    | zero =>
      simp only [List.getElem?_cons_zero, Option.some.injEq] at hi
      subst hi
      simp only [Nat.zero_add]
      have hkeep : ∀ a, ((c.lastSndNrRel + 1) % 4294967296) % c.cacheCount * c.buffSize ≤ a →
          a < ((c.lastSndNrRel + 1) % 4294967296) % c.cacheCount * c.buffSize + c.buffSize →
          c1.sndCache.getD a 0 = c2.sndCache.getD a 0 := by
        intro a ha1 ha2
        apply hpres
        intro j hj hin
        rw [hnr, hB, hC, succ_mod_add] at hin
        have heq := slot_unique c.buffSize _ _ a hin.1 hin.2 ha1 ha2
        exact slots_distinct c.lastSndNrRel c.cacheCount (j + 1) (rest.length + 1) hk hw
          (by omega) (by omega) heq
      unfold Connection.cachedTime Connection.cachedLength Connection.cachedFrame
      rw [hB1, hB]
      refine ⟨?_, ?_, ?_⟩
      · rw [← etime]
        apply readU64_congr
        intro i hi
        exact hkeep _ (by omega) (by omega)
      · rw [readU32_congr c1.sndCache c2.sndCache _ _
          (fun i hi => by
            rw [Nat.add_assoc]
            exact hkeep _ (by omega) (by omega)), elen]
        apply Nat.mod_eq_of_lt
        simp only [HEADER_SIZE]
        omega
      · rw [← eframe]
        apply readBytes_congr
        intro i hi
        rw [Nat.add_assoc]
        simp only [HEADER_SIZE] at hi
        exact hkeep _ (by omega) (by omega)
    | succ i =>
      simp only [List.getElem?_cons_succ] at hi
      have := hent i m hi
      rw [hnr, hC, succ_mod_add] at this
      exact this

/-- The datagrams a run of reliable sends hands to the socket. -/
theorem sendAll_outbox (P : Platform) (msgs : List (ℚ × List Byte)) :
    ∀ c c1 : Connection, Connection.sendAll P c msgs = some c1 →
      c1.outbox.length = c.outbox.length + msgs.length
      ∧ (∀ n, n < c.outbox.length → c1.outbox[n]? = c.outbox[n]?)
      ∧ ∀ i m, msgs[i]? = some m →
          c1.outbox[c.outbox.length + i]?
            = some (u32le (Connection.frameTag true false)
                ++ (u32le ((c.lastSndNrRel + (i + 1)) % 4294967296) ++ m.2)) := by
  induction msgs with
  | nil =>
    intro c c1 h
    simp only [Connection.sendAll, Option.some.injEq] at h
    subst h
    exact ⟨rfl, fun _ _ => rfl, fun i m hi => by simp at hi⟩
  | cons m0 rest ih =>
    intro c c1 h
    have hsz : m0.2.length + HEADER_SIZE ≤ c.buffSize := by
      by_contra hn
      simp only [Connection.sendAll, Connection.send, if_neg hn] at h
      exact absurd h (by simp)
    have hcc : c.cacheCount ≠ 0 := by
      intro h0
      simp only [Connection.sendAll, Connection.send, Connection.cacheOffset, if_pos hsz,
        if_true, if_pos h0] at h
      exact absurd h (by simp)
    have hoff : Connection.cacheOffset c ((c.lastSndNrRel + 1) % 4294967296)
        = some (((c.lastSndNrRel + 1) % 4294967296 % c.cacheCount) * c.buffSize % 4294967296) := by
      unfold Connection.cacheOffset
      rw [if_neg hcc]
    obtain ⟨c2, hs, hnr, _, _, hout, _⟩ := send_cache P m0.1 c m0.2 false hsz _ hoff
    simp only [Connection.sendAll, hs] at h
    obtain ⟨h1, h2, h3⟩ := ih c2 c1 h
    have hl2 : c2.outbox.length = c.outbox.length + 1 := by
      rw [hout]
      simp
    refine ⟨by rw [h1, hl2]; simp only [List.length_cons]; omega, ?_, ?_⟩
    · intro n hn
      rw [h2 n (by omega), hout, List.getElem?_append_left hn]
    · intro i m hi
      cases i with
      | zero =>
        simp only [List.getElem?_cons_zero, Option.some.injEq] at hi
        subst hi
        rw [Nat.add_zero, h2 _ (by omega), hout, List.getElem?_append_right (Nat.le_refl _)]
        simp
      | succ i =>
        simp only [List.getElem?_cons_succ] at hi
        have := h3 i m hi
        rw [hl2, hnr, succ_mod_add] at this
        rw [← this]
        congr 1
        omega

/-- C7, amended: for `cacheCount ≥ 1`, any starting value `base` of
`lastSndNrRel` and `k ≤ cacheCount` reliable sends in a row, when the counter does
not wrap during the run (`base + k < 2^32`) or `cacheCount` divides `2^32`, and
every payload leaves room for the 12 bytes of time and length in the slot
(`size + 20 ≤ buffSize`): for every `i` in `[1, k]` the entry at slot
`(base + i) mod cacheCount` holds the send time, the length and the exact frame of
the `i`-th send, which is the `i`-th datagram handed to the socket.  The
allocation size `(buffSize + 12) * cacheCount` of the constructor is an `int`. -/
theorem cache_holds_unacked_frames (P : Platform) (c : Connection)
    (msgs : List (ℚ × List Byte)) (hcc : 1 ≤ c.cacheCount)
    (hk : msgs.length ≤ c.cacheCount)
    (hw : c.lastSndNrRel + msgs.length < 4294967296 ∨ 4294967296 % c.cacheCount = 0)
    (halloc : (c.buffSize + 12) * c.cacheCount < 2147483648)
    (hsz : ∀ m ∈ msgs, m.2.length + 20 ≤ c.buffSize) :
    ∃ c1, Connection.sendAll P c msgs = some c1
      ∧ ∀ i m, 1 ≤ i → msgs[i - 1]? = some m →
          c1.cachedTime ((c.lastSndNrRel + i) % c.cacheCount)
            = P.bits m.1 % 18446744073709551616
          ∧ c1.cachedLength ((c.lastSndNrRel + i) % c.cacheCount) = HEADER_SIZE + m.2.length
          ∧ c1.cachedFrame ((c.lastSndNrRel + i) % c.cacheCount) (HEADER_SIZE + m.2.length)
            = u32le (Connection.frameTag true false)
                ++ (u32le ((c.lastSndNrRel + i) % 4294967296) ++ m.2)
          ∧ c1.outbox[c.outbox.length + (i - 1)]?
            = some (c1.cachedFrame ((c.lastSndNrRel + i) % c.cacheCount)
                (HEADER_SIZE + m.2.length)) := by
  have hb : c.cacheCount * c.buffSize ≤ 4294967296 := by
    have h1 : c.buffSize * c.cacheCount ≤ (c.buffSize + 12) * c.cacheCount :=
      Nat.mul_le_mul_right _ (by omega)
    rw [Nat.mul_comm] at h1
    omega
  obtain ⟨c1, hall, _, hent⟩ := sendAll_entries P msgs c hcc hk hw hb hsz
  obtain ⟨_, _, hout⟩ := sendAll_outbox P msgs c c1 hall
  refine ⟨c1, hall, ?_⟩
  intro i m hi hm
  have hlt : i - 1 < msgs.length := by
    by_contra hn
    rw [List.getElem?_eq_none (by omega)] at hm
    exact absurd hm (by simp)
  have hwi : c.lastSndNrRel + i < 4294967296 ∨ 4294967296 % c.cacheCount = 0 := by
    rcases hw with h | h
    · left; omega
    · right; exact h
  have e := hent (i - 1) m hm
  have o := hout (i - 1) m hm
  rw [show i - 1 + 1 = i by omega] at e o
  rw [slot_mod c.lastSndNrRel c.cacheCount i hwi] at e
  refine ⟨e.1, e.2.1, e.2.2, ?_⟩
  rw [e.2.2]
  exact o

/-- An instance of C7: two reliable sends across the wrap of the counter with
`cacheCount = 2`; the second frame, number 1, is found at slot `(base + 2) mod 2`. -/
theorem cache_holds_unacked_frames_witness :
    ∃ c1, Connection.sendAll tickPlatform endpointNearWrap [(0, [1]), (0, [2, 3])] = some c1
      ∧ c1.cachedLength ((endpointNearWrap.lastSndNrRel + 2) % endpointNearWrap.cacheCount)
          = HEADER_SIZE + 2
      ∧ c1.cachedFrame ((endpointNearWrap.lastSndNrRel + 2) % endpointNearWrap.cacheCount)
          (HEADER_SIZE + 2)
          = u32le (Connection.frameTag true false)
              ++ (u32le ((endpointNearWrap.lastSndNrRel + 2) % 4294967296) ++ [2, 3]) := by
  obtain ⟨c1, h1, h2⟩ := cache_holds_unacked_frames tickPlatform endpointNearWrap
    [(0, [1]), (0, [2, 3])] (by decide) (by decide) (Or.inr (by decide)) (by decide)
    (by decide)
  obtain ⟨_, h3, h4, _⟩ := h2 2 (0, [2, 3]) (by decide) (by decide)
  exact ⟨c1, h1, h3, h4⟩

/-! ## The protocol id -/

/-- C16 as stated fails: `PROTOCOL_ID & 0xFFFFFFF0` is not `0x504F5250` and
`PROTOCOL_ID` is not `0x504F5253`. -/
theorem protocol_id_not_504F5250 :
    PROTOCOL_ID &&& 0xFFFFFFF0 ≠ 0x504F5250 ∧ PROTOCOL_ID ≠ 0x504F5253 := by
  decide

/-- C16, amended: `PROTOCOL_ID = 1346655563` is `0x5044554B`; the word that `send`
writes in front of every frame, flags masked out, and that the test of `receive`
compares against, `PROTOCOL_ID & 0xFFFFFFF0`, is `0x50445540`. -/
theorem protocol_id_masked :
    PROTOCOL_ID = 0x5044554B ∧ PROTOCOL_ID &&& 0xFFFFFFF0 = 0x50445540
      ∧ ∀ reliable control : Bool,
          Connection.frameTag reliable control &&& 0xFFFFFFF0 = 0x50445540 := by
  refine ⟨by decide, by decide, ?_⟩
  intro reliable control
  cases reliable <;> cases control <;> decide

/-! ## Rejected sequence numbers -/

/-- C19: a datagram in `recBuff` that passes the protocol id test and whose
sequence number is refused (reliable and not `lastRecNrRel + 1` modulo `2^32`, or
unreliable and `checkSeqNr` false) leaves the loop body of `receive` with
`state = Connected` and `lastRec = now` and every other member as it was: the five
counters, `ping`, `lastPng`, the buffers, the cache and the datagrams sent; no
control message is dispatched and nothing is returned. -/
theorem rejected_datagram_only_touches_liveness (P : Platform) (now : ℚ) (c : Connection)
    (size : Nat)
    (hid : readU32 c.recBuff 0 &&& 0xFFFFFFF0 = PROTOCOL_ID &&& 0xFFFFFFF0)
    (hrej : (readU32 c.recBuff 0 &&& 1 ≠ 0
              ∧ readU32 c.recBuff 4 ≠ (c.lastRecNrRel + 1) % 4294967296)
          ∨ (readU32 c.recBuff 0 &&& 1 = 0
              ∧ Connection.checkSeqNr (readU32 c.recBuff 4) c.lastRecNrURel = false)) :
    Connection.processDatagram P now c size
      = some ({ c with state := State.Connected, lastRec := now },
              Event.rejected (decide (readU32 c.recBuff 0 &&& 1 ≠ 0))
                (readU32 c.recBuff 4)) := by
  rcases hrej with ⟨h1, h2⟩ | ⟨h1, h2⟩
  · rw [processDatagram_reliable P now c size hid h1 _ _ rfl rfl, if_neg h2]
    simp only [ne_eq, h1, not_false_eq_true, decide_True]
  · unfold Connection.processDatagram
    simp only [hid, h1, h2, if_true, ne_eq, not_true_eq_false, decide_False,
      Bool.false_eq_true, if_false]

/-- An instance of C19: `relData3` at a new endpoint, which expects the reliable
number 1. -/
theorem rejected_datagram_only_touches_liveness_witness :
    Connection.processDatagram tickPlatform 5
        { Connection.new 10 1000 32 2 with recBuff := relData3 } 9
      = some ({ Connection.new 10 1000 32 2 with
                recBuff := relData3, state := State.Connected, lastRec := 5 },
              Event.rejected true 3) :=
  rejected_datagram_only_touches_liveness tickPlatform 5
    { Connection.new 10 1000 32 2 with recBuff := relData3 } 9 (by decide)
    (Or.inl ⟨by decide, by decide⟩)

/-! ## The keep-alive -/

/-- C20: at the head of `receive` a keep-alive is sent exactly when
`now - lastPng > pngInterv`.  When sent it is one frame of 21 bytes, an unreliable
control frame (reliable flag clear, control flag set) with the current
`lastSndNrURel` as sequence number and the 13-byte payload `0x00`, `now`,
`lastRecNrRel`; then `lastSndNrURel` is one more modulo `2^32` and `lastPng = now`.
When not sent the endpoint is unchanged.  The step completes when the frame fits
the send buffer (`21 ≤ buffSize`); otherwise the assertion of `send` fails. -/
theorem keepAlive_frame (P : Platform) (now : ℚ) (c : Connection) :
    (∀ c1 ev, Connection.keepAlive P now c = some (c1, ev) →
        (ev = [Event.keepAlive] ↔ now - c.lastPng > c.pngInterv))
    ∧ (now - c.lastPng > c.pngInterv → HEADER_SIZE + 13 ≤ c.buffSize →
        ∃ c1 frame, Connection.keepAlive P now c = some (c1, [Event.keepAlive])
          ∧ c1.outbox = c.outbox ++ [frame]
          ∧ frame = u32le (Connection.frameTag false true)
              ++ (u32le c.lastSndNrURel
                ++ (byteOf Ping :: (u64le (P.bits now) ++ u32le c.lastRecNrRel)))
          ∧ frame.length = 21
          ∧ readU32 frame 0 &&& 1 = 0 ∧ readU32 frame 0 &&& 2 ≠ 0
          ∧ readU32 frame 4 = c.lastSndNrURel % 4294967296
          ∧ c1.lastSndNrURel = (c.lastSndNrURel + 1) % 4294967296
          ∧ c1.lastPng = now
          ∧ c1.lastSndNrRel = c.lastSndNrRel ∧ c1.sndCache = c.sndCache)
    ∧ (¬ (now - c.lastPng > c.pngInterv) → Connection.keepAlive P now c = some (c, []))
    ∧ (now - c.lastPng > c.pngInterv → c.buffSize < HEADER_SIZE + 13 →
        Connection.keepAlive P now c = none) := by
  have hlen : (byteOf Ping :: (u64le (P.bits now) ++ u32le c.lastRecNrRel)).length = 13 := rfl
  refine ⟨?_, ?_, ?_, ?_⟩
  · intro c1 ev h
    unfold Connection.keepAlive at h
    split at h
    · rename_i hdue
      rw [Option.map_eq_some'] at h
      obtain ⟨c2, _, h2⟩ := h
      simp only [Prod.mk.injEq] at h2
      simp [← h2.2, hdue]
    · rename_i hdue
      simp only [Option.some.injEq, Prod.mk.injEq] at h
      simp [← h.2, hdue]
  · intro hdue hb
    obtain ⟨c2, hs, ho, h1, h2, h3⟩ := send_eq P now c
      (byteOf Ping :: (u64le (P.bits now) ++ u32le c.lastRecNrRel)) false true
      (by rw [hlen]; omega) (fun hf => absurd hf (by decide))
    simp only [Bool.false_eq_true, if_false] at ho h1 h2
    refine ⟨{ c2 with lastPng := now }, _, ?_, ho, rfl, rfl, ?_, ?_, ?_, h2, rfl, h1, h3 rfl⟩
    · unfold Connection.keepAlive
      simp only [if_pos hdue, hs, Option.map_some']
    · rw [readU32_eq _ 0 (Connection.frameTag false true)
        (fun i hi => by rw [Nat.zero_add, getD_append_ite, if_pos (by rw [length_u32le]; exact hi)])]
      decide
    · rw [readU32_eq _ 0 (Connection.frameTag false true)
        (fun i hi => by rw [Nat.zero_add, getD_append_ite, if_pos (by rw [length_u32le]; exact hi)])]
      decide
    · exact readU32_frame_nr _ _ _
  · intro hdue
    unfold Connection.keepAlive
    rw [if_neg hdue]
  · intro hdue hb
    have hn : Connection.send P now c
        (byteOf Ping :: (u64le (P.bits now) ++ u32le c.lastRecNrRel)) false true = none := by
      unfold Connection.send
      rw [if_neg (by rw [hlen]; omega)]
    unfold Connection.keepAlive
    simp only [if_pos hdue, hn, Option.map_none']

/-- An instance of C20: a new endpoint with ping interval 1 polled at time 5. -/
theorem keepAlive_frame_witness :
    ∃ c1 frame, Connection.keepAlive tickPlatform 5 (Connection.new 10 1 32 2)
          = some (c1, [Event.keepAlive])
      ∧ c1.outbox = (Connection.new 10 1 32 2).outbox ++ [frame]
      ∧ frame = [0x42, 0x55, 0x44, 0x50, 0, 0, 0, 0, 0, 5, 0, 0, 0, 0, 0, 0, 0, 0, 0, 0, 0]
      ∧ c1.lastPng = 5 := by
  obtain ⟨c1, frame, h1, h2, h3, _, _, _, _, _, h9, _⟩ :=
    (keepAlive_frame tickPlatform 5 (Connection.new 10 1 32 2)).2.1
      (by with_unfolding_all decide) (by decide)
  refine ⟨c1, frame, h1, h2, ?_, h9⟩
  rw [h3]
  with_unfolding_all decide

/-! ## What the drain loop leaves alone -/

theorem send_unreliable_cache (P : Platform) (now : ℚ) (c c1 : Connection) (p : List Byte)
    (control : Bool) (h : Connection.send P now c p false control = some c1) :
    c1.sndCache = c.sndCache := by
  unfold Connection.send at h
  split at h
  · simp only [Bool.false_eq_true, if_false, Option.some.injEq] at h
    subst h
    rfl
  · exact absurd h (by simp)

theorem processControlMessage_cache (P : Platform) (now : ℚ) (c c1 : Connection)
    (h : Connection.processControlMessage P now c = some c1) : c1.sndCache = c.sndCache := by
  unfold Connection.processControlMessage at h
  simp only at h
  split at h
  · have hs := send_unreliable_cache P now _ c1 _ true h
    split at hs <;> exact hs
  · split at h
    · split at h <;> (simp only [Option.some.injEq] at h; subst h; rfl)
    · simp only [Option.some.injEq] at h
      subst h
      rfl

/-- The loop body keeps the configuration, the cache and the receive buffer. -/
theorem processDatagram_config (P : Platform) (now : ℚ) (c c1 : Connection) (size : Nat)
    (e : Event) (h : Connection.processDatagram P now c size = some (c1, e)) :
    c1.sndCache = c.sndCache ∧ c1.timeout = c.timeout ∧ c1.pngInterv = c.pngInterv
      ∧ c1.buffSize = c.buffSize ∧ c1.cacheCount = c.cacheCount ∧ c1.recBuff = c.recBuff := by
  unfold Connection.processDatagram at h
  simp only at h
  split at h
  · split at h
    · split at h
      · split at h
        · rw [Option.map_eq_some'] at h
          obtain ⟨c3, hp, h3⟩ := h
          simp only [Prod.mk.injEq] at h3
          obtain ⟨rfl, rfl⟩ := h3
          have h1 := processControlMessage_cache P now _ c3 hp
          have h2 := processControlMessage_lastRecNrRel P now _ c3 hp
          exact ⟨h1, h2.2.2.2.2.2.2.2.2.1, h2.2.2.2.2.2.2.2.2.2, h2.2.2.2.1, h2.2.2.2.2.1, h2.2.2.1⟩
        · simp only [Option.some.injEq, Prod.mk.injEq] at h
          obtain ⟨rfl, rfl⟩ := h
          simp
      · simp only [Option.some.injEq, Prod.mk.injEq] at h
        obtain ⟨rfl, rfl⟩ := h
        simp
    · split at h
      · split at h
        · rw [Option.map_eq_some'] at h
          obtain ⟨c3, hp, h3⟩ := h
          simp only [Prod.mk.injEq] at h3
          obtain ⟨rfl, rfl⟩ := h3
          have h1 := processControlMessage_cache P now _ c3 hp
          have h2 := processControlMessage_lastRecNrRel P now _ c3 hp
          exact ⟨h1, h2.2.2.2.2.2.2.2.2.1, h2.2.2.2.2.2.2.2.2.2, h2.2.2.2.1, h2.2.2.2.2.1, h2.2.2.1⟩
        · simp only [Option.some.injEq, Prod.mk.injEq] at h
          obtain ⟨rfl, rfl⟩ := h
          simp
      · simp only [Option.some.injEq, Prod.mk.injEq] at h
        obtain ⟨rfl, rfl⟩ := h
        simp
  · simp only [Option.some.injEq, Prod.mk.injEq] at h
    obtain ⟨rfl, rfl⟩ := h
    simp

theorem drain_config (P : Platform) (now : ℚ) (inbox : List Datagram) :
    ∀ (c : Connection) (t : Connection.Drained), Connection.drain P now c inbox = some t →
      t.conn.sndCache = c.sndCache ∧ t.conn.timeout = c.timeout
        ∧ t.conn.pngInterv = c.pngInterv ∧ t.conn.buffSize = c.buffSize
        ∧ t.conn.cacheCount = c.cacheCount := by
  induction inbox with
  | nil =>
    intro c t h
    simp only [Connection.drain, Option.some.injEq] at h
    subst h
    simp
  | cons d rest ih =>
    intro c t h
    simp only [Connection.drain] at h
    split at h
    · split at h
      · split at h
        · exact absurd h (by simp)
        · rename_i c1 e hpd
          have hstep := processDatagram_config P now _ c1 _ e hpd
          simp only at hstep
          split at h
          · simp only [Option.some.injEq] at h
            subst h
            exact ⟨hstep.1, hstep.2.1, hstep.2.2.1, hstep.2.2.2.1, hstep.2.2.2.2.1⟩
          · rw [Option.map_eq_some'] at h
            obtain ⟨t1, ht1, rfl⟩ := h
            have := ih c1 t1 ht1
            simp only
            rw [this.1, this.2.1, this.2.2.1, this.2.2.2.1, this.2.2.2.2]
            exact ⟨hstep.1, hstep.2.1, hstep.2.2.1, hstep.2.2.2.1, hstep.2.2.2.2.1⟩
      · exact absurd h (by simp)
    · simp only [Option.some.injEq] at h
      subst h
      simp

theorem keepAlive_config (P : Platform) (now : ℚ) (c c1 : Connection) (ev : List Event)
    (h : Connection.keepAlive P now c = some (c1, ev)) :
    c1.sndCache = c.sndCache ∧ c1.timeout = c.timeout ∧ c1.pngInterv = c.pngInterv
      ∧ c1.buffSize = c.buffSize ∧ c1.cacheCount = c.cacheCount := by
  unfold Connection.keepAlive at h
  split at h
  · rw [Option.map_eq_some'] at h
    obtain ⟨c2, hs, h2⟩ := h
    simp only [Prod.mk.injEq] at h2
    obtain ⟨rfl, rfl⟩ := h2
    have h1 := send_unreliable_cache P now c c2 _ true hs
    have h2 := send_frame_fields P now c c2 _ false true hs
    exact ⟨h1, h2.1, h2.2.1, h2.2.2.1, h2.2.2.2.1⟩
  · simp only [Option.some.injEq, Prod.mk.injEq] at h
    obtain ⟨rfl, rfl⟩ := h
    simp

/-- The call of `receive` when the loop ends without a data message: the end
step runs on the endpoint the loop left. -/
theorem receive_eq_afterDrain (P : Platform) (now : ℚ) (c : Connection)
    (inbox : List Datagram) (c1 : Connection) (ev1 : List Event) (t : Connection.Drained)
    (hk : Connection.keepAlive P now c = some (c1, ev1))
    (hd : Connection.drain P now c1 inbox = some t) (hret : t.ret = none) :
    Connection.receive P now c inbox
      = (Connection.afterDrain P now t.conn).map (fun r =>
          { conn := r.1, inbox := t.inbox, ret := 0, out := [],
            events := ev1 ++ t.events ++ r.2 }) := by
  unfold Connection.receive
  simp only [hk, hd, hret]
  cases Connection.afterDrain P now t.conn <;> rfl

/-! ## Timeout and resend at the end of `receive` -/

/-- The datagram of the resend branch is the bytes read from the cache. -/
theorem resend_datagram (sndBuff cache : List Byte) (off size : Nat) :
    readBytes (writeBytes sndBuff 0 (readBytes cache (off + 12) size)) 0 size
      = readBytes cache (off + 12) size := by
  have h := readBytes_writeBytes_same sndBuff 0 (readBytes cache (off + 12) size)
  rw [length_readBytes] at h
  exact h

/-- The end step of `receive` when the timeout has passed. -/
theorem afterDrain_timeout (P : Platform) (now : ℚ) (c : Connection)
    (hto : now - c.lastRec > c.timeout) :
    Connection.afterDrain P now c = some (Connection.reset c, [Event.reset]) := by
  unfold Connection.afterDrain
  rw [if_pos hto]

/-- The end step of `receive` without a timeout when every reliable frame is
acknowledged. -/
theorem afterDrain_idle (P : Platform) (now : ℚ) (c : Connection)
    (hto : ¬ (now - c.lastRec > c.timeout)) (h : c.lastSndNrRel = c.lastAckNrRel) :
    Connection.afterDrain P now c = some (c, []) := by
  unfold Connection.afterDrain
  rw [if_neg hto, if_neg (not_not.mpr h)]

/-- The end step of `receive` without a timeout when a reliable frame is not
acknowledged, on an endpoint with a cache. -/
theorem afterDrain_unacked (P : Platform) (now : ℚ) (c : Connection)
    (hto : ¬ (now - c.lastRec > c.timeout)) (hne : c.lastSndNrRel ≠ c.lastAckNrRel)
    (off : Nat)
    (hoff : Connection.cacheOffset c ((c.lastAckNrRel + 1) % 4294967296) = some off) :
    Connection.afterDrain P now c
      = if P.round (now - P.value (readU64 c.sndCache off)) > P.round (c.ping * RESEND_FACTOR)
        then
          if readU32 c.sndCache (off + 8) < 2147483648
              ∧ readU32 c.sndCache (off + 8) ≤ c.buffSize then
            some ({ c with
                    sndBuff := writeBytes c.sndBuff 0
                      (readBytes c.sndCache (off + 12) (readU32 c.sndCache (off + 8)))
                    outbox := c.outbox ++ [readBytes c.sndCache (off + 12)
                      (readU32 c.sndCache (off + 8))] },
                  [Event.resend])
          else none
        else some (c, []) := by
  unfold Connection.afterDrain
  simp only [if_neg hto, if_pos hne, hoff, resend_datagram]

/-- The end step of `receive` without a timeout when a reliable frame is not
acknowledged, on an endpoint without a cache slot. -/
theorem afterDrain_no_cache (P : Platform) (now : ℚ) (c : Connection)
    (hto : ¬ (now - c.lastRec > c.timeout)) (hne : c.lastSndNrRel ≠ c.lastAckNrRel)
    (h0 : c.cacheCount = 0) :
    Connection.afterDrain P now c = none := by
  unfold Connection.afterDrain Connection.cacheOffset
  simp only [if_neg hto, if_pos hne, if_pos h0]

set_option maxRecDepth 100000 in
/-- C11 as stated fails on the source.  First run: a new endpoint, `ping = -1`
(unknown), sends one reliable frame at time 0 and polls at time 1 with nothing
received; the frame is sent again, since `1 - 0 > -1 * 1.1f`.  Second run: the
endpoint of `unackedRun` has one frame outstanding, sent at time 1, and the known
`ping = 1`; at `now = 1 + 1.1f = 17616077 / 8388608` the three conditions of the
claim hold (`now - send_time = 1.1f = 1.10000002..` is above `1.1 * ping = 1.1`)
and nothing is sent again: the factor of the source is the `float` `1.1f`, and
`1.1f > 1 * 1.1f` fails. -/
theorem resend_while_ping_unknown :
    ((Connection.send tickPlatform 0 (Connection.new 10 1000 32 2) [7] true false).bind
        (fun c => Connection.receive tickPlatform 1 c [])).map
      (fun r => (r.conn.ping, r.events, r.conn.outbox))
      = some (-1, [Event.resend],
          [[0x41, 0x55, 0x44, 0x50, 1, 0, 0, 0, 7], [0x41, 0x55, 0x44, 0x50, 1, 0, 0, 0, 7]])
    ∧ (endpointUnackedPing.lastSndNrRel ≠ endpointUnackedPing.lastAckNrRel
        ∧ endpointUnackedPing.ping ≠ -1
        ∧ 17616077 / 8388608 - tickPlatform.value (endpointUnackedPing.cachedTime
              ((endpointUnackedPing.lastAckNrRel + 1) % endpointUnackedPing.cacheCount))
            > 11 / 10 * endpointUnackedPing.ping)
    ∧ (Connection.receive tickPlatform (17616077 / 8388608) endpointUnackedPing []).map
        (fun r => (r.events, r.conn.outbox))
      = some ([], [[0x41, 0x55, 0x44, 0x50, 1, 0, 0, 0, 7]]) := by
  refine ⟨by with_unfolding_all decide, by with_unfolding_all decide,
    by with_unfolding_all decide⟩

set_option maxRecDepth 100000 in
/-- The length stored in a cache entry can exceed `buffSize`.  Two reliable sends
of 24 bytes on an endpoint with `buffSize = 32` and two slots pass the assertion
of `send`; the entry of the second, at offset 0, is 44 bytes long and covers the
time and the length of the first, at the offsets 32 and 40, which then read 0 and
100.  The call of `receive` at time 1 takes the resend branch with the length
100, above the 32 bytes of `sndBuff`, and does not return. -/
theorem resend_overruns_sndBuff :
    (Connection.sendAll tickPlatform (Connection.new 10 1000 32 2)
        [(0, List.replicate 24 0xAA), (0, payloadOverLength)]).map
      (fun c => (c.lastSndNrRel, c.lastAckNrRel, Connection.cacheOffset c 1,
        readU64 c.sndCache 32, readU32 c.sndCache 40, c.buffSize))
      = some (2, 0, some 32, 0, 100, 32)
    ∧ ((Connection.sendAll tickPlatform (Connection.new 10 1000 32 2)
          [(0, List.replicate 24 0xAA), (0, payloadOverLength)]).bind
        (fun c => Connection.receive tickPlatform 1 c [])).isSome = false := by
  refine ⟨by decide, by with_unfolding_all decide⟩

set_option maxRecDepth 100000 in
/-- The resend branch is reached with `cacheCount = 0`.  An endpoint without a
cache slot cannot send a reliable frame, but a Ping with the ack 1 sets
`lastAckNrRel = 1` while `lastSndNrRel` is 0; the end step of the same call of
`receive` then takes the remainder modulo `cacheCount` and does not return. -/
theorem resend_divides_by_zero :
    (Connection.drain tickPlatform 0 (Connection.new 10 1000 32 0) [pingAck1]).map
      (fun t => (t.conn.lastSndNrRel, t.conn.lastAckNrRel, t.conn.cacheCount, t.ret.isNone))
      = some (0, 1, 0, true)
    ∧ (Connection.receive tickPlatform 0 (Connection.new 10 1000 32 0) [pingAck1]).isSome
      = false := by
  refine ⟨by decide, by with_unfolding_all decide⟩

/-- C11, amended: when `receive` ends its loop without a data message and
without a timeout, it sends a frame again exactly when
`lastSndNrRel != lastAckNrRel` and `now - send_time > ping * 1.1f`, the two sides
compared as the `double` results of the difference and of the product;
`send_time` is read from the entry at `cacheOffset` of `lastAckNrRel + 1` and
`1.1f` is the `float` constant `9227469 / 8388608`.  `ping` is not compared with
the sentinel, so while `ping = -1` the product is `-1.1f`.  With every frame
acknowledged, or the test failing, the call returns 0 and the endpoint is as the
loop left it.  With the test holding, the call returns 0 after one datagram, the
cached bytes in the stored length, when that length is at most `buffSize` (and
below `2^31`); with a larger stored length the copy runs past `sndBuff` and the
call does not return.  With a frame outstanding and `cacheCount = 0` the slot
index is a division by zero and the call does not return. -/
theorem resend_condition (P : Platform) (now : ℚ) (c : Connection) (inbox : List Datagram)
    (c1 : Connection) (ev1 : List Event) (t : Connection.Drained)
    (hk : Connection.keepAlive P now c = some (c1, ev1))
    (hd : Connection.drain P now c1 inbox = some t) (hret : t.ret = none)
    (hto : ¬ (now - t.conn.lastRec > t.conn.timeout)) :
    (t.conn.lastSndNrRel = t.conn.lastAckNrRel →
        Connection.receive P now c inbox
          = some { conn := t.conn, inbox := t.inbox, ret := 0, out := [],
                   events := ev1 ++ t.events })
    ∧ (t.conn.lastSndNrRel ≠ t.conn.lastAckNrRel → ∀ off,
        Connection.cacheOffset t.conn ((t.conn.lastAckNrRel + 1) % 4294967296) = some off →
        (¬ (P.round (now - P.value (readU64 t.conn.sndCache off))
              > P.round (t.conn.ping * RESEND_FACTOR)) →
          Connection.receive P now c inbox
            = some { conn := t.conn, inbox := t.inbox, ret := 0, out := [],
                     events := ev1 ++ t.events })
        ∧ (P.round (now - P.value (readU64 t.conn.sndCache off))
              > P.round (t.conn.ping * RESEND_FACTOR) →
            readU32 t.conn.sndCache (off + 8) < 2147483648
              ∧ readU32 t.conn.sndCache (off + 8) ≤ t.conn.buffSize →
            ∃ r, Connection.receive P now c inbox = some r ∧ r.ret = 0 ∧ r.inbox = t.inbox
              ∧ r.events = ev1 ++ t.events ++ [Event.resend]
              ∧ r.conn.outbox = t.conn.outbox
                  ++ [readBytes t.conn.sndCache (off + 12) (readU32 t.conn.sndCache (off + 8))])
        ∧ (P.round (now - P.value (readU64 t.conn.sndCache off))
              > P.round (t.conn.ping * RESEND_FACTOR) →
            ¬ (readU32 t.conn.sndCache (off + 8) < 2147483648
                ∧ readU32 t.conn.sndCache (off + 8) ≤ t.conn.buffSize) →
            Connection.receive P now c inbox = none))
    ∧ (t.conn.lastSndNrRel ≠ t.conn.lastAckNrRel → t.conn.cacheCount = 0 →
        Connection.receive P now c inbox = none)
    ∧ (t.conn.ping = -1 → t.conn.ping * RESEND_FACTOR = -(9227469 / 8388608)) := by
  have hr := receive_eq_afterDrain P now c inbox c1 ev1 t hk hd hret
  refine ⟨?_, ?_, ?_, ?_⟩
  · intro heq
    rw [hr, afterDrain_idle P now t.conn hto heq]
    simp only [Option.map_some', List.append_nil]
  · intro hne off hoff
    have ha := afterDrain_unacked P now t.conn hto hne off hoff
    refine ⟨?_, ?_, ?_⟩
    · intro hnd
      rw [hr, ha, if_neg hnd]
      simp only [Option.map_some', List.append_nil]
    · intro hdue hlen
      rw [if_pos hdue, if_pos hlen] at ha
      rw [hr, ha]
      exact ⟨_, rfl, rfl, rfl, rfl, rfl⟩
    · intro hdue hlen
      rw [hr, ha, if_pos hdue, if_neg hlen]
      rfl
  · intro hne h0
    rw [hr, afterDrain_no_cache P now t.conn hto hne h0]
    rfl
  · intro hp
    rw [hp]
    unfold RESEND_FACTOR
    norm_num

set_option maxRecDepth 100000 in
/-- An instance of C11: the endpoint of `unackedRun`, with the frame number 1
outstanding since time 1 and `ping = 1`, polled at `now = 3`, sends the cached
frame again, since `3 - 1 > 1 * 1.1f`. -/
theorem resend_condition_witness :
    endpointUnackedPing.lastSndNrRel = 1 ∧ endpointUnackedPing.lastAckNrRel = 0
      ∧ endpointUnackedPing.ping = 1
      ∧ endpointUnackedPing.outbox = [[0x41, 0x55, 0x44, 0x50, 1, 0, 0, 0, 7]]
      ∧ ∃ r, Connection.receive tickPlatform 3 endpointUnackedPing [] = some r
          ∧ r.ret = 0 ∧ r.events = [Event.resend]
          ∧ r.conn.outbox
              = [[0x41, 0x55, 0x44, 0x50, 1, 0, 0, 0, 7], [0x41, 0x55, 0x44, 0x50, 1, 0, 0, 0, 7]] := by
  have hk : Connection.keepAlive tickPlatform 3 endpointUnackedPing
      = some (endpointUnackedPing, []) := by
    unfold Connection.keepAlive
    rw [if_neg (by with_unfolding_all decide)]
  obtain ⟨r, h1, h2, _, h4, h5⟩ :=
    ((resend_condition tickPlatform 3 endpointUnackedPing [] endpointUnackedPing []
        { conn := endpointUnackedPing, inbox := [], ret := none, events := [] }
        hk rfl rfl (by with_unfolding_all decide)).2.1
      (by with_unfolding_all decide) 32 (by with_unfolding_all decide)).2.1
      (by with_unfolding_all decide) (by with_unfolding_all decide)
  refine ⟨by with_unfolding_all decide, by with_unfolding_all decide,
    by with_unfolding_all decide, by with_unfolding_all decide, r, h1, h2, h4, ?_⟩
  rw [h5]
  with_unfolding_all decide

/-- C12: when the loop of `receive` has ended without a data message and
`now - lastRec > timeout`, `receive` returns 0 and leaves the endpoint in the
state of `reset`: the five counters are 0, `state` is `Disconnected`, `ping` is
`-1`, `lastRec` and `lastPng` are 0; the configuration and the cache are those at
the start of the call, and nothing is sent after the loop. -/
theorem timeout_resets_endpoint (P : Platform) (now : ℚ) (c : Connection)
    (inbox : List Datagram) (c1 : Connection) (ev1 : List Event) (t : Connection.Drained)
    (hk : Connection.keepAlive P now c = some (c1, ev1))
    (hd : Connection.drain P now c1 inbox = some t) (hret : t.ret = none)
    (hto : now - t.conn.lastRec > t.conn.timeout) :
    ∃ r, Connection.receive P now c inbox = some r ∧ r.ret = 0 ∧ r.out = []
      ∧ r.conn = Connection.reset t.conn
      ∧ r.conn.lastSndNrRel = 0 ∧ r.conn.lastSndNrURel = 0 ∧ r.conn.lastAckNrRel = 0
      ∧ r.conn.lastRecNrRel = 0 ∧ r.conn.lastRecNrURel = 0
      ∧ r.conn.state = State.Disconnected ∧ r.conn.ping = -1
      ∧ r.conn.lastRec = 0 ∧ r.conn.lastPng = 0
      ∧ r.conn.sndCache = c.sndCache ∧ r.conn.timeout = c.timeout
      ∧ r.conn.pngInterv = c.pngInterv ∧ r.conn.buffSize = c.buffSize
      ∧ r.conn.cacheCount = c.cacheCount
      ∧ r.conn.outbox = t.conn.outbox
      ∧ r.events = ev1 ++ t.events ++ [Event.reset] := by
  have hr := receive_eq_afterDrain P now c inbox c1 ev1 t hk hd hret
  rw [afterDrain_timeout P now t.conn hto] at hr
  have hkc := keepAlive_config P now c c1 ev1 hk
  have hdc := drain_config P now inbox c1 t hd
  refine ⟨_, hr, rfl, rfl, rfl, ?_⟩
  simp only [Connection.reset, true_and, and_true, hdc.1, hkc.1, hdc.2.1, hkc.2.1,
    hdc.2.2.1, hkc.2.2.1, hdc.2.2.2.1, hkc.2.2.2.1, hdc.2.2.2.2, hkc.2.2.2.2]

set_option maxRecDepth 100000 in
/-- An instance of C12: the endpoint of `busyRun` has sent two reliable and two
unreliable frames, holds the ack 1, has accepted the reliable number 1 and the
unreliable number 1, is `Connected` with `ping = 59`, and received and pinged
last at time 60.  Polled at time 100 with nothing received and the timeout 10, it
is reset: every one of these fields changes, while the cache, with the two frames
in it, and the four datagrams sent stay. -/
theorem timeout_resets_endpoint_witness :
    (endpointBusy.lastSndNrRel = 2 ∧ endpointBusy.lastSndNrURel = 2
      ∧ endpointBusy.lastAckNrRel = 1 ∧ endpointBusy.lastRecNrRel = 1
      ∧ endpointBusy.lastRecNrURel = 1 ∧ endpointBusy.state = State.Connected
      ∧ endpointBusy.ping = 59 ∧ endpointBusy.lastRec = 60 ∧ endpointBusy.lastPng = 60
      ∧ endpointBusy.outbox.length = 4
      ∧ endpointBusy.cachedFrame 1 9 = [0x41, 0x55, 0x44, 0x50, 1, 0, 0, 0, 7]
      ∧ endpointBusy.cachedFrame 0 10 = [0x41, 0x55, 0x44, 0x50, 2, 0, 0, 0, 8, 9])
    ∧ ∃ r, Connection.receive tickPlatform 100 endpointBusy [] = some r
        ∧ r.ret = 0
        ∧ r.conn.lastSndNrRel = 0 ∧ r.conn.lastSndNrURel = 0 ∧ r.conn.lastAckNrRel = 0
        ∧ r.conn.lastRecNrRel = 0 ∧ r.conn.lastRecNrURel = 0
        ∧ r.conn.state = State.Disconnected ∧ r.conn.ping = -1
        ∧ r.conn.lastRec = 0 ∧ r.conn.lastPng = 0
        ∧ r.conn.sndCache = endpointBusy.sndCache
        ∧ r.conn.outbox = endpointBusy.outbox
        ∧ r.events = [Event.reset] := by
  have hk : Connection.keepAlive tickPlatform 100 endpointBusy = some (endpointBusy, []) := by
    unfold Connection.keepAlive
    rw [if_neg (by with_unfolding_all decide)]
  obtain ⟨r, h1, h2, _, _, h5, h6, h7, h8, h9, h10, h11, h12, h13, h14, _, _, _, _, h19, h20⟩ :=
    timeout_resets_endpoint tickPlatform 100 endpointBusy [] endpointBusy []
      { conn := endpointBusy, inbox := [], ret := none, events := [] }
      hk rfl rfl (by with_unfolding_all decide)
  exact ⟨by with_unfolding_all decide,
    r, h1, h2, h5, h6, h7, h8, h9, h10, h11, h12, h13, h14, h19, h20⟩

/-- C17: when the resend branch of `receive` fires on an endpoint with a cache
and the length stored in the entry is at most `buffSize` (and below `2^31`),
exactly one datagram is handed to the socket after the loop, and it is byte for
byte what the cache holds for the oldest frame not acknowledged: the entry at the
offset `((lastAckNrRel + 1) mod 2^32 mod cacheCount) * buffSize` (a `u32`
product), offset 12, in the length stored at offset 8; that is the frame field of
slot `(lastAckNrRel + 1) mod cacheCount` when the offsets of the cache do not
wrap.  The cache, with the send time of that entry, the five counters, `state`,
`ping`, `lastRec` and `lastPng` are as before the resend.  (The bound on the
stored length is needed: the entries are 12 bytes longer than their stride
`buffSize`, so a later `send` can overwrite the length of an entry, and the copy
of a length above `buffSize` runs past `sndBuff`.) -/
theorem resend_sends_cached_frame (P : Platform) (now : ℚ) (c : Connection)
    (inbox : List Datagram) (c1 : Connection) (ev1 : List Event) (t : Connection.Drained)
    (hk : Connection.keepAlive P now c = some (c1, ev1))
    (hd : Connection.drain P now c1 inbox = some t) (hret : t.ret = none)
    (hto : ¬ (now - t.conn.lastRec > t.conn.timeout))
    (hne : t.conn.lastSndNrRel ≠ t.conn.lastAckNrRel)
    (off : Nat)
    (hoff : Connection.cacheOffset t.conn ((t.conn.lastAckNrRel + 1) % 4294967296) = some off)
    (hdue : P.round (now - P.value (readU64 t.conn.sndCache off))
            > P.round (t.conn.ping * RESEND_FACTOR))
    (hlen : readU32 t.conn.sndCache (off + 8) < 2147483648
            ∧ readU32 t.conn.sndCache (off + 8) ≤ t.conn.buffSize) :
    ∃ r, Connection.receive P now c inbox = some r ∧ r.ret = 0
      ∧ r.events = ev1 ++ t.events ++ [Event.resend]
      ∧ r.conn.outbox = t.conn.outbox
          ++ [readBytes t.conn.sndCache (off + 12) (readU32 t.conn.sndCache (off + 8))]
      ∧ 0 < t.conn.cacheCount
      ∧ off = (t.conn.lastAckNrRel + 1) % 4294967296 % t.conn.cacheCount * t.conn.buffSize
                % 4294967296
      ∧ (t.conn.cacheCount * t.conn.buffSize ≤ 4294967296 → 0 < t.conn.buffSize →
          r.conn.outbox = t.conn.outbox
            ++ [t.conn.cachedFrame (((t.conn.lastAckNrRel + 1) % 4294967296) % t.conn.cacheCount)
                (t.conn.cachedLength
                  (((t.conn.lastAckNrRel + 1) % 4294967296) % t.conn.cacheCount))])
      ∧ r.conn.sndCache = t.conn.sndCache
      ∧ r.conn.lastSndNrRel = t.conn.lastSndNrRel ∧ r.conn.lastSndNrURel = t.conn.lastSndNrURel
      ∧ r.conn.lastAckNrRel = t.conn.lastAckNrRel ∧ r.conn.lastRecNrRel = t.conn.lastRecNrRel
      ∧ r.conn.lastRecNrURel = t.conn.lastRecNrURel ∧ r.conn.state = t.conn.state
      ∧ r.conn.ping = t.conn.ping ∧ r.conn.lastRec = t.conn.lastRec
      ∧ r.conn.lastPng = t.conn.lastPng := by
  have hr := receive_eq_afterDrain P now c inbox c1 ev1 t hk hd hret
  rw [afterDrain_unacked P now t.conn hto hne off hoff, if_pos hdue, if_pos hlen] at hr
  have hcc : 0 < t.conn.cacheCount := by
    by_contra h0
    unfold Connection.cacheOffset at hoff
    rw [if_pos (by omega)] at hoff
    exact absurd hoff (by simp)
  have hval : off = (t.conn.lastAckNrRel + 1) % 4294967296 % t.conn.cacheCount
      * t.conn.buffSize % 4294967296 := by
    unfold Connection.cacheOffset at hoff
    rw [if_neg (by omega)] at hoff
    exact (Option.some.inj hoff).symm
  refine ⟨_, hr, rfl, rfl, rfl, hcc, hval, ?_, rfl, rfl, rfl, rfl, rfl, rfl, rfl, rfl, rfl, rfl⟩
  intro hb hB
  have he := cacheOffset_eq t.conn ((t.conn.lastAckNrRel + 1) % 4294967296) hcc hb hB
  rw [hoff] at he
  simp only [Connection.cachedFrame, Connection.cachedLength, ← Option.some.inj he]

set_option maxRecDepth 100000 in
/-- An instance of C17: the endpoint with the frames number 1 and 2 outstanding,
sent at time 0, and `ping` unknown is polled at time 1.  The one datagram sent is
the frame number 1, the 9 bytes cached in slot 1; the cache and the counters
stay. -/
theorem resend_sends_cached_frame_witness :
    endpointTwoUnacked.outbox
        = [[0x41, 0x55, 0x44, 0x50, 1, 0, 0, 0, 7], [0x41, 0x55, 0x44, 0x50, 2, 0, 0, 0, 8, 9]]
      ∧ endpointTwoUnacked.cachedLength 1 = 9
      ∧ ∃ r, Connection.receive tickPlatform 1 endpointTwoUnacked [] = some r
          ∧ r.events = [Event.resend]
          ∧ r.conn.outbox
              = [[0x41, 0x55, 0x44, 0x50, 1, 0, 0, 0, 7],
                 [0x41, 0x55, 0x44, 0x50, 2, 0, 0, 0, 8, 9],
                 [0x41, 0x55, 0x44, 0x50, 1, 0, 0, 0, 7]]
          ∧ r.conn.sndCache = endpointTwoUnacked.sndCache
          ∧ r.conn.lastSndNrRel = 2 ∧ r.conn.lastAckNrRel = 0 := by
  have hk : Connection.keepAlive tickPlatform 1 endpointTwoUnacked
      = some (endpointTwoUnacked, []) := by
    unfold Connection.keepAlive
    rw [if_neg (by with_unfolding_all decide)]
  obtain ⟨r, h1, _, h3, h4, _, _, _, h8, h9, _, h11, _⟩ :=
    resend_sends_cached_frame tickPlatform 1 endpointTwoUnacked []
      endpointTwoUnacked []
      { conn := endpointTwoUnacked, inbox := [], ret := none, events := [] }
      hk rfl rfl (by with_unfolding_all decide) (by decide) 32 (by decide)
      (by with_unfolding_all decide) (by decide)
  refine ⟨by decide, by decide, r, h1, h3, ?_, h8, ?_, ?_⟩
  · rw [h4]
    decide
  · rw [h9]
    decide
  · rw [h11]
    decide

/-! ## Ping and Pong -/

theorem getD_frame_payload (tag nr : Nat) (p : List Byte) (i : Nat) :
    (u32le tag ++ (u32le nr ++ p)).getD (HEADER_SIZE + i) 0 = p.getD i 0 := by
  rw [getD_append_ite, getD_append_ite]
  have a1 : ¬ (HEADER_SIZE + i < (u32le tag).length) := by
    rw [length_u32le]; simp only [HEADER_SIZE]; omega
  have a2 : ¬ (HEADER_SIZE + i - (u32le tag).length < (u32le nr).length) := by
    rw [length_u32le, length_u32le]; simp only [HEADER_SIZE]; omega
  have a3 : HEADER_SIZE + i - (u32le tag).length - (u32le nr).length = i := by
    rw [length_u32le, length_u32le]; simp only [HEADER_SIZE]; omega
  rw [if_neg a1, if_neg a2, a3]

/-- The end step of `receive` returns and sends nothing when every reliable
frame is acknowledged. -/
theorem afterDrain_all_acked (P : Platform) (now : ℚ) (c : Connection)
    (h : c.lastSndNrRel = c.lastAckNrRel) :
    ∃ r, Connection.afterDrain P now c = some r ∧ r.1.outbox = c.outbox
      ∧ r.2 ≠ [Event.resend] := by
  by_cases hto : now - c.lastRec > c.timeout
  · exact ⟨_, afterDrain_timeout P now c hto, rfl, by simp⟩
  · exact ⟨_, afterDrain_idle P now c hto h, rfl, by simp⟩

/-- C14: for an accepted Ping in `recBuff` (payload `0x00`, the timestamp in the
bytes 9 to 16, the ack in the bytes 17 to 20, so a datagram of 21 bytes in a
buffer of more), `processControlMessage` sets `lastAckNrRel` to the ack when
`checkSeqNr (ack, lastAckNrRel)` holds and leaves it otherwise, and hands one
frame to the socket: an unreliable control frame of 21 bytes whose first payload
byte is `0x01` and whose next 8 bytes are those of the timestamp received.  With
`lastSndNrRel = 5`, `lastAckNrRel = 0` and ack 5 the result has
`lastAckNrRel = 5`, and the end step of `receive` sends nothing again. -/
theorem ping_acks_and_pongs (P : Platform) (now : ℚ) (c : Connection)
    (hping : (c.recBuff.getD HEADER_SIZE 0).val = Ping)
    (hb : HEADER_SIZE + 13 ≤ c.buffSize) :
    ∃ c1 frame, Connection.processControlMessage P now c = some c1
      ∧ c1.lastAckNrRel
          = (if Connection.checkSeqNr (readU32 c.recBuff (HEADER_SIZE + 9)) c.lastAckNrRel
             then readU32 c.recBuff (HEADER_SIZE + 9) else c.lastAckNrRel)
      ∧ c1.outbox = c.outbox ++ [frame]
      ∧ frame.length = 21
      ∧ readU32 frame 0 &&& 0xFFFFFFF0 = PROTOCOL_ID &&& 0xFFFFFFF0
      ∧ readU32 frame 0 &&& 1 = 0 ∧ readU32 frame 0 &&& 2 ≠ 0
      ∧ readU32 frame 4 = c.lastSndNrURel % 4294967296
      ∧ frame.getD HEADER_SIZE 0 = 1
      ∧ readBytes frame (HEADER_SIZE + 1) 8 = readBytes c.recBuff (HEADER_SIZE + 1) 8
      ∧ c1.lastSndNrRel = c.lastSndNrRel
      ∧ (c.lastSndNrRel = 5 → c.lastAckNrRel = 0 → readU32 c.recBuff (HEADER_SIZE + 9) = 5 →
          c1.lastAckNrRel = 5
          ∧ ∀ now2, ∃ r, Connection.afterDrain P now2 c1 = some r
              ∧ r.1.outbox = c1.outbox ∧ r.2 ≠ [Event.resend]) := by
  have hlen : (byteOf Pong :: (readBytes c.recBuff (HEADER_SIZE + 1) 8
      ++ readBytes P.uninit 0 4)).length = 13 := by
    simp [length_readBytes]
  have hsend : ∀ c0 : Connection, c0.buffSize = c.buffSize → c0.outbox = c.outbox →
      c0.lastSndNrURel = c.lastSndNrURel → c0.lastSndNrRel = c.lastSndNrRel →
      ∃ c1, Connection.send P now c0 (byteOf Pong :: (readBytes c.recBuff (HEADER_SIZE + 1) 8
          ++ readBytes P.uninit 0 4)) false true = some c1
        ∧ c1.lastAckNrRel = c0.lastAckNrRel
        ∧ c1.outbox = c.outbox ++ [u32le (Connection.frameTag false true)
            ++ (u32le c.lastSndNrURel ++ (byteOf Pong :: (readBytes c.recBuff (HEADER_SIZE + 1) 8
              ++ readBytes P.uninit 0 4)))]
        ∧ c1.lastSndNrRel = c.lastSndNrRel := by
    intro c0 h1 h2 h3 h4
    obtain ⟨c1, hs, ho, e1, _⟩ := send_eq P now c0 (byteOf Pong
      :: (readBytes c.recBuff (HEADER_SIZE + 1) 8 ++ readBytes P.uninit 0 4)) false true
      (by rw [hlen, h1]; omega) (fun hf => absurd hf (by decide))
    simp only [Bool.false_eq_true, if_false] at ho e1
    refine ⟨c1, hs, (send_frame_fields P now c0 c1 _ false true hs).2.2.2.2.2.1, ?_, ?_⟩
    · rw [ho, h2, h3]
    · rw [e1, h4]
  have hpcm : ∃ c1, Connection.processControlMessage P now c = some c1
      ∧ c1.lastAckNrRel
          = (if Connection.checkSeqNr (readU32 c.recBuff (HEADER_SIZE + 9)) c.lastAckNrRel
             then readU32 c.recBuff (HEADER_SIZE + 9) else c.lastAckNrRel)
      ∧ c1.outbox = c.outbox ++ [u32le (Connection.frameTag false true)
            ++ (u32le c.lastSndNrURel ++ (byteOf Pong :: (readBytes c.recBuff (HEADER_SIZE + 1) 8
              ++ readBytes P.uninit 0 4)))]
      ∧ c1.lastSndNrRel = c.lastSndNrRel := by
    unfold Connection.processControlMessage
    simp only [hping, if_true]
    by_cases hchk : Connection.checkSeqNr (readU32 c.recBuff (HEADER_SIZE + 9)) c.lastAckNrRel
        = true
    · simp only [hchk, if_true]
      obtain ⟨c1, hs, ha, ho, hr⟩ := hsend
        { c with lastAckNrRel := readU32 c.recBuff (HEADER_SIZE + 9) } rfl rfl rfl rfl
      exact ⟨c1, hs, ha, ho, hr⟩
    · simp only [hchk, Bool.false_eq_true, if_false]
      obtain ⟨c1, hs, ha, ho, hr⟩ := hsend c rfl rfl rfl rfl
      exact ⟨c1, hs, ha, ho, hr⟩
  obtain ⟨c1, hs, ha, ho, hr⟩ := hpcm
  have htag : readU32 (u32le (Connection.frameTag false true)
      ++ (u32le c.lastSndNrURel ++ (byteOf Pong :: (readBytes c.recBuff (HEADER_SIZE + 1) 8
        ++ readBytes P.uninit 0 4)))) 0 = Connection.frameTag false true % 4294967296 :=
    readU32_eq _ 0 _
      (fun i hi => by rw [Nat.zero_add, getD_append_ite, if_pos (by rw [length_u32le]; exact hi)])
  refine ⟨c1, _, hs, ha, ho, ?_, ?_, ?_, ?_, readU32_frame_nr _ _ _, ?_, ?_, hr, ?_⟩
  · simp [length_u32le, length_readBytes]
  · rw [htag]; decide
  · rw [htag]; decide
  · rw [htag]; decide
  · exact (getD_frame_payload (Connection.frameTag false true) c.lastSndNrURel
      (byteOf Pong :: (readBytes c.recBuff (HEADER_SIZE + 1) 8 ++ readBytes P.uninit 0 4))
      0).trans rfl
  · apply ext_getD
    · simp [length_readBytes]
    · intro i hi
      rw [length_readBytes] at hi
      rw [getD_readBytes, if_pos hi, getD_readBytes, if_pos hi, Nat.add_assoc,
        getD_frame_payload, Nat.add_comm 1 i, List.getD_cons_succ, getD_append_ite,
        length_readBytes, if_pos hi, getD_readBytes, if_pos hi, Nat.add_comm i 1, Nat.add_assoc]
  · intro h5 h0 hack
    have hc : Connection.checkSeqNr 5 0 = true := by decide
    rw [hack, h0, hc, if_pos rfl] at ha
    refine ⟨ha, fun now2 => afterDrain_all_acked P now2 c1 (by rw [hr, h5, ha])⟩

/-- An instance of C14: an endpoint with five frames outstanding and a Ping with
cumulative ack 3 in `recBuff`. -/
theorem ping_acks_and_pongs_witness :
    ∃ c1 frame, Connection.processControlMessage tickPlatform 0 endpointWithPingAck3 = some c1
      ∧ c1.lastAckNrRel = 3
      ∧ c1.outbox = endpointWithPingAck3.outbox ++ [frame]
      ∧ frame.length = 21 := by
  obtain ⟨c1, frame, h1, h2, h3, h4, _⟩ :=
    ping_acks_and_pongs tickPlatform 0 endpointWithPingAck3 (by decide) (by decide)
  refine ⟨c1, frame, h1, ?_, h3, h4⟩
  rw [h2]
  decide

/-! ## Datagrams shorter than the header -/

/-- C13, evaluated on the source: a new endpoint receives a stray datagram of 8
bytes whose bytes 4 to 7 are `5, 0, 0, 0`, then a datagram of 4 bytes, the tag of
an unreliable data frame.  The loop body reads the sequence number 5 from the
bytes the first datagram left in `recBuff`, accepts the second datagram,
sets `lastRecNrURel = 5` and `receive` returns `4 - 8 = -4` (the source passes
this length to `memcpy`).  A datagram of 4 bytes alone at a new endpoint is
returned with `-4` as well. -/
theorem short_datagram_returned :
    (Connection.receive tickPlatform 0 (Connection.new 10 1000 32 2)
        [[0xE0, 0xBE, 0xAD, 0xDE, 5, 0, 0, 0], [0x40, 0x55, 0x44, 0x50]]).map
      (fun r => (r.ret, r.conn.lastRecNrURel, r.events))
      = some (-4, 5, [Event.stray, Event.data false 5 (-4) []])
    ∧ (Connection.receive tickPlatform 0 (Connection.new 10 1000 32 2)
        [[0x40, 0x55, 0x44, 0x50]]).map (fun r => (r.ret, r.events))
      = some (-4, [Event.data false 0 (-4) []]) := by
  with_unfolding_all decide

/-! ## Ping smoothing -/

/-- C15 as stated fails on the source: a sample equal to the sentinel is stored
as "unknown".  Two Pongs with the samples `-1` (echoed timestamp 1 at time 0) and
`3` leave `ping = 3`, where the rule of the claim gives
`0.1 * (-1) + 0.9 * 3 = 13/5`. -/
theorem ping_sample_minus_one :
    [(0, pongStamp1), (4, pongStamp1)].map (pongSample tickPlatform) = [-1, 3]
      ∧ (Connection.pongAll tickPlatform (Connection.new 10 1000 32 2)
          [(0, pongStamp1), (4, pongStamp1)]).map (fun c => c.ping) = some 3
      ∧ specPing [-1, 3] = some (13 / 5) := by
  with_unfolding_all decide

/-- The Pong branch of `processControlMessage`. -/
theorem processControlMessage_pong (P : Platform) (now : ℚ) (c : Connection)
    (h : (c.recBuff.getD HEADER_SIZE 0).val = Pong) :
    Connection.processControlMessage P now c
      = some { c with
          ping := if c.ping = -1 then now - P.value (readU64 c.recBuff (HEADER_SIZE + 1))
                  else PNG_SMOOTHING * c.ping
                    + (1 - PNG_SMOOTHING) * (now - P.value (readU64 c.recBuff (HEADER_SIZE + 1))) } := by
  unfold Connection.processControlMessage
  have h0 : ¬ ((c.recBuff.getD HEADER_SIZE 0).val = Ping) := by
    rw [h]
    decide
  simp only []
  rw [if_neg h0, if_pos h]
  by_cases hp : c.ping = -1
  · rw [if_pos hp, if_pos hp]
  · rw [if_neg hp, if_neg hp]

theorem pongAll_known (P : Platform) (pongs : List (ℚ × List Byte)) :
    ∀ c : Connection,
      (∀ m ∈ pongs, (m.2.getD HEADER_SIZE 0).val = Pong) →
      (∀ k, k < pongs.length →
        specPingFrom c.ping ((pongs.map (pongSample P)).take k) ≠ -1) →
      ∃ c1, Connection.pongAll P c pongs = some c1
        ∧ c1.ping = specPingFrom c.ping (pongs.map (pongSample P)) := by
  induction pongs with
  | nil =>
    intro c _ _
    exact ⟨c, rfl, rfl⟩
  | cons m rest ih =>
    intro c hp hs
    have hm := hp m (List.mem_cons_self _ _)
    have hstep := processControlMessage_pong P m.1 { c with recBuff := m.2 } hm
    have hne : c.ping ≠ -1 := hs 0 (by simp)
    simp only [if_neg hne] at hstep
    obtain ⟨c1, h1, h2⟩ := ih
      { c with recBuff := m.2,
               ping := PNG_SMOOTHING * c.ping + (1 - PNG_SMOOTHING) * pongSample P m }
      (fun x hx => hp x (List.mem_cons_of_mem _ hx))
      (fun k hk => by
        have := hs (k + 1) (by simp only [List.length_cons]; omega)
        simp only [List.map_cons, List.take_succ_cons, specPingFrom] at this
        have e : PNG_SMOOTHING * c.ping + (1 - PNG_SMOOTHING) * pongSample P m
            = 1 / 10 * c.ping + 9 / 10 * pongSample P m := by
          unfold PNG_SMOOTHING
          ring
        simp only [e]
        exact this)
    refine ⟨c1, ?_, ?_⟩
    · simp only [Connection.pongAll, hstep]
      exact h1
    · rw [h2]
      simp only [List.map_cons, specPingFrom, PNG_SMOOTHING]
      congr 1
      ring

/-- Samples above `-1` never give the sentinel. -/
theorem specPingFrom_above (samples : List ℚ) :
    ∀ p : ℚ, -1 < p → (∀ s ∈ samples, -1 < s) → -1 < specPingFrom p samples := by
  induction samples with
  | nil =>
    intro p hp _
    exact hp
  | cons s ss ih =>
    intro p hp hs
    have h1 := hs s (List.mem_cons_self _ _)
    exact ih _ (by linarith) (fun x hx => hs x (List.mem_cons_of_mem _ hx))

/-- C15, amended: starting from `ping = -1` (unknown) and dispatching Pong
datagrams with the RTT samples `s_1, s_2, ..` (`now` minus the echoed timestamp),
the stored ping after the first Pong is `s_1` and after the `n`-th Pong it is
`0.1 * ping_(n-1) + 0.9 * s_n`, over the rationals, as long as no ping stored
before the last Pong equals the sentinel `-1`; that is so whenever every sample is
above `-1`. -/
theorem ping_smoothing (P : Platform) (c : Connection) (pongs : List (ℚ × List Byte))
    (hc : c.ping = -1) (hp : ∀ m ∈ pongs, (m.2.getD HEADER_SIZE 0).val = Pong)
    (hne : pongs ≠ []) :
    ((∀ k, 0 < k → k < pongs.length →
        specPing ((pongs.map (pongSample P)).take k) ≠ some (-1)) →
      ∃ c1, Connection.pongAll P c pongs = some c1
        ∧ some c1.ping = specPing (pongs.map (pongSample P)))
    ∧ ((∀ m ∈ pongs, -1 < pongSample P m) →
        ∀ k, 0 < k → k < pongs.length →
          specPing ((pongs.map (pongSample P)).take k) ≠ some (-1)) := by
  cases pongs with
  | nil => exact absurd rfl hne
  | cons m rest =>
    refine ⟨?_, ?_⟩
    · intro hs
      have hm := hp m (List.mem_cons_self _ _)
      have hstep := processControlMessage_pong P m.1 { c with recBuff := m.2 } hm
      simp only [if_pos hc] at hstep
      obtain ⟨c1, h1, h2⟩ := pongAll_known P rest
        { c with recBuff := m.2, ping := pongSample P m }
        (fun x hx => hp x (List.mem_cons_of_mem _ hx))
        (fun k hk => by
          have := hs (k + 1) (by omega) (by simp only [List.length_cons]; omega)
          simp only [List.map_cons, List.take_succ_cons, specPing, ne_eq,
            Option.some.injEq] at this
          exact this)
      refine ⟨c1, ?_, ?_⟩
      · simp only [Connection.pongAll, hstep]
        exact h1
      · rw [h2]
        rfl
    · intro hs k hk0 hk
      obtain ⟨j, rfl⟩ : ∃ j, k = j + 1 := ⟨k - 1, by omega⟩
      simp only [List.map_cons, List.take_succ_cons, specPing, ne_eq, Option.some.injEq]
      have hm := hs m (List.mem_cons_self _ _)
      have := specPingFrom_above ((rest.map (pongSample P)).take j) (pongSample P m) hm
        (fun s hsmem => by
          have h1 := List.mem_of_mem_take hsmem
          rw [List.mem_map] at h1
          obtain ⟨x, hx, rfl⟩ := h1
          exact hs x (List.mem_cons_of_mem _ hx))
      intro heq
      rw [heq] at this
      exact absurd this (lt_irrefl _)

/-- An instance of C15: Pongs with the samples 2 and 7 at a new endpoint. -/
theorem ping_smoothing_witness :
    ∃ c1, Connection.pongAll tickPlatform (Connection.new 10 1000 32 2)
          [(3, pongStamp1), (8, pongStamp1)] = some c1
      ∧ some c1.ping
          = specPing ([(3, pongStamp1), (8, pongStamp1)].map (pongSample tickPlatform)) :=
  (ping_smoothing tickPlatform (Connection.new 10 1000 32 2)
      [(3, pongStamp1), (8, pongStamp1)]
      (by with_unfolding_all decide) (by decide) (by decide)).1
    ((ping_smoothing tickPlatform (Connection.new 10 1000 32 2)
      [(3, pongStamp1), (8, pongStamp1)]
      (by with_unfolding_all decide) (by decide) (by decide)).2
      (by with_unfolding_all decide))

/-! ## Return at the first data message -/

/-- The loop on a queue whose first part is processed without a return: the
loop goes on with the rest from the endpoint that part left. -/
theorem drain_append (P : Platform) (now : ℚ) (pre : List Datagram) :
    ∀ (c : Connection) (t0 : Connection.Drained), Connection.drain P now c pre = some t0 →
      t0.ret = none → t0.events.length = pre.length →
      ∀ tail, Connection.drain P now c (pre ++ tail)
        = (Connection.drain P now t0.conn tail).map
            (fun t => { t with events := t0.events ++ t.events }) := by
  induction pre with
  | nil =>
    intro c t0 h _ _ tail
    simp only [Connection.drain, Option.some.injEq] at h
    subst h
    simp only [List.nil_append]
    cases Connection.drain P now c tail <;> rfl
  | cons d rest ih =>
    intro c t0 h hret hlen tail
    simp only [Connection.drain, List.cons_append] at h ⊢
    split at h
    · rename_i hpos
      rw [if_pos hpos]
      split at h
      · rename_i hfit
        rw [if_pos hfit]
        split at h
        · exact absurd h (by simp)
        · rename_i c1 e hpd
          split at h
          · simp only [Option.some.injEq] at h
            subst h
            exact absurd hret (by simp)
          · rw [Option.map_eq_some'] at h
            obtain ⟨t1, ht1, rfl⟩ := h
            simp only [List.length_cons, Nat.add_right_cancel_iff] at hlen
            simp only [List.append_eq]
            rw [ih c1 t1 ht1 hret hlen tail]
            cases Connection.drain P now t1.conn tail <;> rfl
      · exact absurd h (by simp)
    · simp only [Option.some.injEq] at h
      subst h
      simp at hlen

/-- What the loop body yields is never one of the events of the other steps. -/
theorem processDatagram_event (P : Platform) (now : ℚ) (c c1 : Connection) (size : Nat)
    (e : Event) (h : Connection.processDatagram P now c size = some (c1, e)) :
    e ≠ Event.reset ∧ e ≠ Event.resend ∧ e ≠ Event.keepAlive := by
  unfold Connection.processDatagram at h
  simp only at h
  split at h
  · split at h
    · split at h
      · split at h
        · rw [Option.map_eq_some'] at h
          obtain ⟨c3, _, h3⟩ := h
          simp only [Prod.mk.injEq] at h3
          rw [← h3.2]
          simp
        · simp only [Option.some.injEq, Prod.mk.injEq] at h
          rw [← h.2]
          simp
      · simp only [Option.some.injEq, Prod.mk.injEq] at h
        rw [← h.2]
        simp
    · split at h
      · split at h
        · rw [Option.map_eq_some'] at h
          obtain ⟨c3, _, h3⟩ := h
          simp only [Prod.mk.injEq] at h3
          rw [← h3.2]
          simp
        · simp only [Option.some.injEq, Prod.mk.injEq] at h
          rw [← h.2]
          simp
      · simp only [Option.some.injEq, Prod.mk.injEq] at h
        rw [← h.2]
        simp
  · simp only [Option.some.injEq, Prod.mk.injEq] at h
    rw [← h.2]
    simp

/-- The events of a loop that ends without a return: none of them returned a
message, and none is a `reset` or a resend. -/
theorem drain_events_none (P : Platform) (now : ℚ) (inbox : List Datagram) :
    ∀ (c : Connection) (t : Connection.Drained), Connection.drain P now c inbox = some t →
      t.ret = none →
      ∀ e ∈ t.events, e.returned = none ∧ e ≠ Event.reset ∧ e ≠ Event.resend := by
  induction inbox with
  | nil =>
    intro c t h _ e he
    simp only [Connection.drain, Option.some.injEq] at h
    subst h
    simp at he
  | cons d rest ih =>
    intro c t h hret e he
    simp only [Connection.drain] at h
    split at h
    · split at h
      · split at h
        · exact absurd h (by simp)
        · rename_i c1 e1 hpd
          have hk := processDatagram_event P now _ c1 _ e1 hpd
          split at h
          · simp only [Option.some.injEq] at h
            subst h
            exact absurd hret (by simp)
          · rename_i hnone
            rw [Option.map_eq_some'] at h
            obtain ⟨t1, ht1, rfl⟩ := h
            simp only [List.mem_cons] at he
            rcases he with rfl | he
            · exact ⟨hnone, hk.1, hk.2.1⟩
            · exact ih c1 t1 ht1 hret e he
      · exact absurd h (by simp)
    · simp only [Option.some.injEq] at h
      subst h
      simp at he

/-- A data event of the loop body carries the result of `processMessage`. -/
theorem processDatagram_data (P : Platform) (now : ℚ) (c c1 : Connection) (size : Nat)
    (rel : Bool) (nr : Nat) (n : Int) (out : List Byte)
    (h : Connection.processDatagram P now c size = some (c1, Event.data rel nr n out)) :
    n = (size : Int) - 8 ∧ out = readBytes c.recBuff HEADER_SIZE (size - 8) := by
  have hpm : ∀ c0 : Connection, c0.recBuff = c.recBuff →
      (Connection.processMessage c0 size).1 = (size : Int) - 8
        ∧ (Connection.processMessage c0 size).2 = readBytes c.recBuff HEADER_SIZE (size - 8) := by
    intro c0 h0
    unfold Connection.processMessage
    simp only [h0, HEADER_SIZE]
    refine ⟨by norm_num, ?_⟩
    congr 1
    omega
  unfold Connection.processDatagram at h
  simp only at h
  split at h
  · split at h
    · split at h
      · split at h
        · rw [Option.map_eq_some'] at h
          obtain ⟨c3, _, h3⟩ := h
          simp at h3
        · simp only [Option.some.injEq, Prod.mk.injEq, Event.data.injEq] at h
          obtain ⟨_, _, _, h3, h4⟩ := h
          rw [← h3, ← h4]
          exact hpm _ rfl
      · simp at h
    · split at h
      · split at h
        · rw [Option.map_eq_some'] at h
          obtain ⟨c3, _, h3⟩ := h
          simp at h3
        · simp only [Option.some.injEq, Prod.mk.injEq, Event.data.injEq] at h
          obtain ⟨_, _, _, h3, h4⟩ := h
          rw [← h3, ← h4]
          exact hpm _ rfl
      · simp at h
  · simp at h
theorem socketReceive_fits (recBuff : List Byte) (maxSize : Nat) (d : Datagram)
    (h : d.length < maxSize) :
    (Connection.socketReceive recBuff maxSize d).1 = d.length
      ∧ readBytes (Connection.socketReceive recBuff maxSize d).2 HEADER_SIZE
            (d.length - 8) = readBytes d HEADER_SIZE (d.length - 8) := by
  have hm : min d.length maxSize = d.length := by omega
  unfold Connection.socketReceive
  simp only [hm, List.take_length]
  refine ⟨trivial, ?_⟩
  apply readBytes_congr
  intro i hi
  rw [getD_writeBytes, if_pos (by simp only [HEADER_SIZE]; omega)]
  simp

/-- C18: when the loop of `receive` has processed the datagrams `pre` without a
return and the next datagram `d`, of `s` bytes, is accepted as a data message,
`receive` returns `s - 8` at once with the bytes of `d` from offset 8: the
datagrams `rest` queued behind `d` stay in the socket, the endpoint is the one
`processMessage` left (neither the timeout `reset` nor the resend step runs), and
the data message is the only one of the call. -/
theorem receive_returns_first_data (P : Platform) (now : ℚ) (c : Connection)
    (pre : List Datagram) (d : Datagram) (rest : List Datagram) (c1 : Connection)
    (ev1 : List Event) (t0 : Connection.Drained) (c2 : Connection) (rel : Bool) (nr : Nat)
    (n : Int) (out : List Byte)
    (hk : Connection.keepAlive P now c = some (c1, ev1))
    (hpre : Connection.drain P now c1 pre = some t0) (hret : t0.ret = none)
    (hlen : t0.events.length = pre.length)
    (hpos : 0 < d.length) (hfit : d.length < t0.conn.buffSize)
    (hacc : Connection.processDatagram P now
        { t0.conn with
          recBuff := (Connection.socketReceive t0.conn.recBuff t0.conn.buffSize d).2 }
        d.length = some (c2, Event.data rel nr n out)) :
    Connection.receive P now c (pre ++ d :: rest)
        = some { conn := c2, inbox := rest, ret := (d.length : Int) - 8,
                 out := readBytes d HEADER_SIZE (d.length - 8),
                 events := ev1 ++ t0.events ++ [Event.data rel nr n out] }
      ∧ n = (d.length : Int) - 8
      ∧ out = readBytes d HEADER_SIZE (d.length - 8)
      ∧ (∀ e ∈ ev1 ++ t0.events,
          e.returned = none ∧ e ≠ Event.reset ∧ e ≠ Event.resend) := by
  obtain ⟨hs1, hs2⟩ := socketReceive_fits t0.conn.recBuff t0.conn.buffSize d hfit
  obtain ⟨hn, ho⟩ := processDatagram_data P now _ c2 d.length rel nr n out hacc
  simp only at ho
  rw [hs2] at ho
  have hstep : Connection.drain P now t0.conn (d :: rest)
      = some { conn := c2, inbox := rest, ret := some (n, out),
               events := [Event.data rel nr n out] } := by
    rw [Connection.drain]
    simp only [hs1, hpos, hfit, if_true, hacc, Event.returned]
  have hall : Connection.drain P now c1 (pre ++ d :: rest)
      = some { conn := c2, inbox := rest, ret := some (n, out),
               events := t0.events ++ [Event.data rel nr n out] } := by
    rw [drain_append P now pre c1 t0 hpre hret hlen (d :: rest), hstep]
    rfl
  refine ⟨?_, hn, ho, ?_⟩
  · unfold Connection.receive
    simp only [hk, hall, List.append_assoc, hn, ho]
  · intro e he
    rw [List.mem_append] at he
    rcases he with he | he
    · have hka : ev1 = [] ∨ ev1 = [Event.keepAlive] := (keepAlive_rel P now c c1 ev1 hk).2
      rcases hka with rfl | rfl
      · simp at he
      · simp only [List.mem_singleton] at he
        subst he
        simp [Event.returned]
    · exact drain_events_none P now pre c1 t0 hpre hret e he

/-- An instance of C18: a stray datagram, then the reliable data message number 1,
then another datagram, at a new endpoint. -/
theorem receive_returns_first_data_witness :
    Connection.receive tickPlatform 0 (Connection.new 10 1000 32 2)
        ([[0xE0, 0xBE, 0xAD, 0xDE, 1, 2]] ++ relData1 :: [relData3])
      = some { conn := { Connection.new 10 1000 32 2 with
                         recBuff := (Connection.socketReceive
                           (Connection.socketReceive (Connection.new 10 1000 32 2).recBuff 32
                             [0xE0, 0xBE, 0xAD, 0xDE, 1, 2]).2 32 relData1).2
                         state := State.Connected, lastRec := 0, lastRecNrRel := 1 },
               inbox := [relData3], ret := (relData1.length : Int) - 8,
               out := readBytes relData1 HEADER_SIZE (relData1.length - 8),
               events := [] ++ [Event.stray] ++ [Event.data true 1 1 [9]] } := by
  have hk : Connection.keepAlive tickPlatform 0 (Connection.new 10 1000 32 2)
      = some (Connection.new 10 1000 32 2, []) := by
    unfold Connection.keepAlive
    rw [if_neg (by with_unfolding_all decide)]
  exact (receive_returns_first_data tickPlatform 0 (Connection.new 10 1000 32 2)
    [[0xE0, 0xBE, 0xAD, 0xDE, 1, 2]] relData1 [relData3] (Connection.new 10 1000 32 2) []
    { conn := { Connection.new 10 1000 32 2 with
                recBuff := (Connection.socketReceive (Connection.new 10 1000 32 2).recBuff 32
                  [0xE0, 0xBE, 0xAD, 0xDE, 1, 2]).2 },
      inbox := [], ret := none, events := [Event.stray] }
    _ true 1 1 [9] hk rfl rfl rfl (by decide) (by decide) rfl).1

end Kore
